import Mathlib

/-!
# FlashAI text-to-flashcard pipeline: a verification development

This file gives a shallow embedding, in Lean 4, of the core text-to-flashcard
pipeline of the FlashAI repository (file `FlashAI/utils.py`), and proves or
refutes the specification claims about it.

Modelling conventions:
* Python `str` values are Lean `String`s; all operations are implemented on the
  underlying `List Char` (`String.data`) by structural recursion, so every
  definition evaluates inside the kernel.
* Python's whitespace set (used by `str.strip` and by the regex class `\s`)
  is modelled by `isPyWs` below, covering the ASCII and the common Unicode
  whitespace code points.
* Regular expressions from the source are embedded either as dedicated
  scanning functions (where the pattern is simple enough that its backtracking
  semantics collapses to a deterministic scan) or through the small
  backtracking engine `RE`/`reRun` below, which reproduces the leftmost /
  greedy / lazy semantics of CPython's `re` module for the pattern fragment
  the source uses.
* The stream of `random.randint(0, 3)` draws is abstracted as a function
  `draws : Nat → Fin 4`; each call site of `assign_options_random` consumes
  the draw whose index is the position of the card being built (documented at
  each site).  Every theorem quantifies over all draw streams.
* The external Bytez call is I/O; its observable outcome is passed in as an
  `AIOutcome` value: the call raised (`exc`), the result carried a truthy
  `error` field (`errField`), or a content string was extracted from the
  result shape (`content s`, where `s = ""` also covers absent content).
-/

namespace FlashAI

/-! ## Python string primitives -/

/-- Whitespace as Python sees it (`str.strip()`, regex `\s` on `str`):
ASCII whitespace, the C1 separators, NEL, NBSP and the Unicode space block. -/
def isPyWs (c : Char) : Bool :=
  c = ' ' || c = '\t' || c = '\n' || c = '\r' || c = '\x0b' || c = '\x0c' ||
  c = '\x1c' || c = '\x1d' || c = '\x1e' || c = '\x1f' || c = '\x85' ||
  c = '\xa0' || c = ' ' ||
  (' ' ≤ c && c ≤ ' ') ||
  c = ' ' || c = ' ' || c = ' ' || c = ' ' || c = '　'

/-- `l.strip()` on the character list: drop Python whitespace from both ends. -/
def pyStripL (l : List Char) : List Char :=
  ((l.dropWhile isPyWs).reverse.dropWhile isPyWs).reverse

/-- Python `s.strip()`. -/
def pyStrip (s : String) : String := ⟨pyStripL s.data⟩

/-- Python `s.strip(chars)`: drop the characters of the set from both ends. -/
def pyStripChars (p : Char → Bool) (l : List Char) : List Char :=
  ((l.dropWhile p).reverse.dropWhile p).reverse

/-- Python `s[:n]` on strings. -/
def sTake (n : Nat) (s : String) : String := ⟨s.data.take n⟩

/-- Python `needle in haystack` (substring containment) on character lists. -/
def isSubL (needle : List Char) : List Char → Bool
  | [] => needle.isEmpty
  | c :: cs => needle.isPrefixOf (c :: cs) || isSubL needle cs

/-- Python `needle in haystack` on strings. -/
def pyIn (needle haystack : String) : Bool := isSubL needle.data haystack.data

/-- Python `s.lower()` (ASCII model of `str.lower`). -/
def pyLower (s : String) : String := ⟨s.data.map Char.toLower⟩

/-- Python `s.upper()` (ASCII model of `str.upper`). -/
def pyUpper (s : String) : String := ⟨s.data.map Char.toUpper⟩

/-- Python `s.capitalize()`: first character upper-cased, the rest lower-cased. -/
def pyCapitalize (s : String) : String :=
  match s.data with
  | [] => ""
  | c :: cs => ⟨c.toUpper :: cs.map Char.toLower⟩

/-- Python `s.endswith(t)` on strings. -/
def pyEndsWith (t s : String) : Bool := t.data.isSuffixOf s.data

/-- Python `s.startswith(t)` on strings (list level). -/
def startsWithL : List Char → List Char → Bool
  | [], _ => true
  | _ :: _, [] => false
  | a :: as, b :: bs => a = b && startsWithL as bs

/-! ## `clean_text` (utils.py lines 34-36)

```python
def clean_text(text):
    text = re.sub(r'\s+', ' ', text)
    return text.strip()
```

`re.sub(r'\s+', ' ', text)` replaces every maximal run of whitespace by one
space, scanning left to right; `subWsRuns`/`afterWsRun` below implement that
scan by mutual structural recursion. -/

mutual

/-- `re.sub(r'\s+', ' ', ·)`: each maximal whitespace run becomes one `' '`. -/
def subWsRuns : List Char → List Char
  | [] => []
  | c :: cs => if isPyWs c then ' ' :: afterWsRun cs else c :: subWsRuns cs

/-- State of the scan just after a whitespace run was replaced: keep dropping
the rest of the run, then resume the ordinary scan. -/
def afterWsRun : List Char → List Char
  | [] => []
  | c :: cs => if isPyWs c then afterWsRun cs else c :: subWsRuns cs

end

/-- `clean_text` from the source: collapse whitespace runs, then strip. -/
def clean_text (text : String) : String := ⟨pyStripL (subWsRuns text.data)⟩

/-! ### Normal form of `clean_text` output (claim C9) -/

/-- The collapsed normal form claimed by the spec: every whitespace character
is a plain space, no two adjacent characters are both whitespace, and the
first and last characters are not whitespace. -/
def Collapsed (l : List Char) : Prop :=
  (∀ c ∈ l, isPyWs c → c = ' ') ∧
  l.Chain' (fun a b => ¬(isPyWs a ∧ isPyWs b)) ∧
  (∀ c, l.head? = some c → ¬ isPyWs c) ∧
  (∀ c, l.getLast? = some c → ¬ isPyWs c)

theorem subWsRuns_ws_is_space :
    ∀ l : List Char, (∀ c ∈ subWsRuns l, isPyWs c → c = ' ') ∧
      (∀ c ∈ afterWsRun l, isPyWs c → c = ' ') := by
  intro l
  induction l with
  | nil => simp [subWsRuns, afterWsRun]
  | cons c cs ih =>
    constructor
    · intro d hd hws
      simp only [subWsRuns] at hd
      by_cases h : isPyWs c
      · simp [h] at hd
        rcases hd with h1 | h1
        · exact h1
        · exact ih.2 d h1 hws
      · simp [h] at hd
        rcases hd with h1 | h1
        · exact absurd (h1 ▸ hws) h
        · exact ih.1 d h1 hws
    · intro d hd hws
      simp only [afterWsRun] at hd
      by_cases h : isPyWs c
      · simp [h] at hd
        exact ih.2 d hd hws
      · simp [h] at hd
        rcases hd with h1 | h1
        · exact absurd (h1 ▸ hws) h
        · exact ih.1 d h1 hws

/-- After the substitution scan, no two adjacent characters are whitespace;
moreover the residual scan `afterWsRun` starts with a non-whitespace character
when it is nonempty. -/
theorem subWsRuns_chain :
    ∀ l : List Char,
      (subWsRuns l).Chain' (fun a b => ¬(isPyWs a ∧ isPyWs b)) ∧
      (afterWsRun l).Chain' (fun a b => ¬(isPyWs a ∧ isPyWs b)) ∧
      (∀ c, (afterWsRun l).head? = some c → ¬ isPyWs c) := by
  intro l
  induction l with
  | nil => simp [subWsRuns, afterWsRun]
  | cons c cs ih =>
    obtain ⟨ih1, ih2, ih3⟩ := ih
    by_cases h : isPyWs c
    · refine ⟨?_, ?_, ?_⟩
      · simp only [subWsRuns, h, if_pos]
        rw [List.chain'_cons']
        refine ⟨?_, ih2⟩
        intro y hy hcon
        exact ih3 y hy hcon.2
      · simpa [afterWsRun, h] using ih2
      · simpa [afterWsRun, h] using ih3
    · refine ⟨?_, ?_, ?_⟩
      · simp only [subWsRuns, h, if_neg, Bool.false_eq_true, not_false_iff]
        rw [List.chain'_cons']
        refine ⟨?_, ih1⟩
        intro y _ hcon
        exact h hcon.1
      · simp only [afterWsRun, h, if_neg, Bool.false_eq_true, not_false_iff]
        rw [List.chain'_cons']
        refine ⟨?_, ih1⟩
        intro y _ hcon
        exact h hcon.1
      · intro d hd
        simp only [afterWsRun, h, if_neg, Bool.false_eq_true, not_false_iff,
          List.head?_cons, Option.some_inj] at hd
        subst hd
        simpa using h

theorem head?_dropWhile_not (p : Char → Bool) :
    ∀ l : List Char, ∀ c, (l.dropWhile p).head? = some c → ¬ p c := by
  intro l
  induction l with
  | nil => simp
  | cons a l ih =>
    intro c hc
    by_cases h : p a
    · rw [List.dropWhile_cons_of_pos h] at hc
      exact ih c hc
    · rw [List.dropWhile_cons_of_neg h] at hc
      simp only [List.head?_cons, Option.some_inj] at hc
      subst hc
      simpa using h

theorem mem_dropWhile (p : Char → Bool) :
    ∀ l : List Char, ∀ c ∈ l.dropWhile p, c ∈ l := by
  intro l
  induction l with
  | nil => simp
  | cons a l ih =>
    intro c hc
    by_cases h : p a
    · rw [List.dropWhile_cons_of_pos h] at hc
      exact List.mem_cons_of_mem a (ih c hc)
    · rwa [List.dropWhile_cons_of_neg h] at hc

theorem chain'_dropWhile {R : Char → Char → Prop} (p : Char → Bool) :
    ∀ l : List Char, l.Chain' R → (l.dropWhile p).Chain' R := by
  intro l hl
  induction l with
  | nil => simp
  | cons a l ih =>
    by_cases h : p a
    · rw [List.dropWhile_cons_of_pos h]
      exact ih hl.tail
    · rwa [List.dropWhile_cons_of_neg h]

/-- A nonempty `dropWhile` keeps the last element of the list. -/
theorem getLast?_dropWhile (p : Char → Bool) (l : List Char)
    (h : l.dropWhile p ≠ []) : (l.dropWhile p).getLast? = l.getLast? := by
  obtain ⟨t, ht⟩ := List.dropWhile_suffix (l := l) (p := p)
  conv_rhs => rw [← ht]
  rw [List.getLast?_append_of_ne_nil _ h]

/-- Stripping the output of the whitespace-collapsing scan yields the
collapsed normal form. -/
theorem pyStripL_collapsed (m : List Char)
    (hws : ∀ c ∈ m, isPyWs c → c = ' ')
    (hch : m.Chain' (fun a b => ¬(isPyWs a ∧ isPyWs b))) :
    Collapsed (pyStripL m) := by
  refine ⟨?_, ?_, ?_, ?_⟩
  · intro c hc hcws
    apply hws c _ hcws
    have h1 : c ∈ (m.dropWhile isPyWs).reverse.dropWhile isPyWs := by
      simpa [pyStripL] using hc
    have h2 : c ∈ (m.dropWhile isPyWs).reverse := mem_dropWhile _ _ c h1
    have h3 : c ∈ m.dropWhile isPyWs := by simpa using h2
    exact mem_dropWhile _ _ c h3
  · have h1 : (m.dropWhile isPyWs).Chain' (fun a b => ¬(isPyWs a ∧ isPyWs b)) :=
      chain'_dropWhile _ _ hch
    have h2 : ((m.dropWhile isPyWs).reverse).Chain'
        (fun a b => ¬(isPyWs b ∧ isPyWs a)) := by
      rw [List.chain'_reverse]
      exact h1.imp (fun _ _ hab => hab)
    have h3 : (((m.dropWhile isPyWs).reverse.dropWhile isPyWs)).Chain'
        (fun a b => ¬(isPyWs b ∧ isPyWs a)) := chain'_dropWhile _ _ h2
    simp only [pyStripL]
    exact List.chain'_reverse.mpr (h3.imp (fun _ _ hab => hab))
  · intro c hc
    simp only [pyStripL, List.head?_reverse] at hc
    have hne : (m.dropWhile isPyWs).reverse.dropWhile isPyWs ≠ [] := by
      intro h0
      rw [h0] at hc
      simp at hc
    rw [getLast?_dropWhile _ _ hne, List.getLast?_reverse] at hc
    exact head?_dropWhile_not _ _ _ hc
  · intro c hc
    simp only [pyStripL, List.getLast?_reverse] at hc
    exact head?_dropWhile_not _ _ _ hc

/-- The output of `clean_text` is in collapsed normal form: this is the
second half of claim C9. -/
theorem clean_text_collapsed (s : String) : Collapsed ((clean_text s).data) := by
  simp only [clean_text]
  exact pyStripL_collapsed _ ((subWsRuns_ws_is_space s.data).1)
    ((subWsRuns_chain s.data).1)

/-- On a list in collapsed normal form, the whitespace-collapsing scan is the
identity. -/
theorem subWsRuns_of_collapsed :
    ∀ n, ∀ l : List Char, l.length ≤ n →
      (∀ c ∈ l, isPyWs c → c = ' ') →
      l.Chain' (fun a b => ¬(isPyWs a ∧ isPyWs b)) →
      subWsRuns l = l := by
  intro n
  induction n with
  | zero =>
    intro l hl _ _
    have : l = [] := List.eq_nil_of_length_eq_zero (Nat.le_zero.mp hl)
    simp [this, subWsRuns]
  | succ n ih =>
    intro l hl hws hch
    match l with
    | [] => simp [subWsRuns]
    | c :: cs =>
      by_cases h : isPyWs c
      · have hc : c = ' ' := hws c (List.mem_cons_self _ _) h
        simp only [subWsRuns, h, if_pos]
        match cs with
        | [] => simp [afterWsRun, hc]
        | d :: ds =>
          have hd : ¬ isPyWs d := by
            have := (List.chain'_cons.mp hch).1
            intro hdws
            exact this ⟨h, hdws⟩
          simp only [afterWsRun, hd, if_neg, Bool.false_eq_true,
            not_false_iff]
          have hds : subWsRuns ds = ds := by
            apply ih ds
            · simp only [List.length_cons] at hl
              omega
            · intro x hx hxws
              exact hws x (by simp [hx]) hxws
            · exact ((List.chain'_cons.mp hch).2).tail
          rw [hds, hc]
      · simp only [subWsRuns, h, if_neg, Bool.false_eq_true, not_false_iff]
        have hcs : subWsRuns cs = cs := by
          apply ih cs
          · simp only [List.length_cons] at hl
            omega
          · intro x hx hxws
            exact hws x (by simp [hx]) hxws
          · exact hch.tail
        rw [hcs]

/-- On a list in collapsed normal form, stripping is the identity. -/
theorem pyStripL_of_collapsed (l : List Char) (h : Collapsed l) :
    pyStripL l = l := by
  obtain ⟨_, _, hh, hl⟩ := h
  have h1 : l.dropWhile isPyWs = l := by
    match l with
    | [] => simp
    | c :: cs =>
      have : ¬ isPyWs c := hh c rfl
      rw [List.dropWhile_cons_of_neg (by simpa using this)]
  have h2 : l.reverse.dropWhile isPyWs = l.reverse := by
    match hrev : l.reverse with
    | [] => simp
    | c :: cs =>
      have hc : l.getLast? = some c := by
        rw [← List.head?_reverse, hrev, List.head?_cons]
      have : ¬ isPyWs c := hl c hc
      rw [List.dropWhile_cons_of_neg (by simpa using this)]
  simp only [pyStripL, h1, h2, List.reverse_reverse]

/-- `clean_text` is the identity on strings already in collapsed normal
form. -/
theorem clean_text_of_collapsed (s : String) (h : Collapsed s.data) :
    clean_text s = s := by
  simp only [clean_text]
  rw [subWsRuns_of_collapsed s.data.length s.data le_rfl h.1 h.2.1,
    pyStripL_of_collapsed _ h]

/-- Claim C9: `clean_text` is idempotent, and its output has every whitespace
run collapsed to a single space with no leading or trailing whitespace
(the `Collapsed` normal form). -/
theorem C9_clean_text_idempotent_collapsed (s : String) :
    clean_text (clean_text s) = clean_text s ∧ Collapsed ((clean_text s).data) := by
  refine ⟨?_, clean_text_collapsed s⟩
  exact clean_text_of_collapsed _ (clean_text_collapsed s)

/-- Witness for C9 at a concrete input. -/
theorem C9_clean_text_idempotent_collapsed_witness :
    clean_text (clean_text "  a \t b  ") = clean_text "  a \t b  " :=
  (C9_clean_text_idempotent_collapsed "  a \t b  ").1

/-! ## `extract_last_json_array` (utils.py lines 60-95)

```python
def extract_last_json_array(text):
    if not text:
        return None
    matches = re.findall(r'\[[\s\S]*?\]', text)
    js = matches[-1] if matches else None
    if js:
        s = js.strip()
        if s.startswith("```"):
            s = s.strip('`').strip()
        return s
    start_idx = text.find('[')
    if start_idx != -1:
        candidate = text[start_idx:]
        if ']' not in candidate:
            open_obj = candidate.count('{')
            close_obj = candidate.count('}')
            if close_obj < open_obj:
                candidate += '}' * (open_obj - close_obj)
            candidate += ']'
        last_obj_end = candidate.rfind('}')
        if last_obj_end != -1:
            tail = candidate[last_obj_end+1:]
            tail = re.sub(r'[^\]]+', '', tail)
            candidate = candidate[:last_obj_end+1] + tail
        salvaged = candidate.strip()
        return salvaged if salvaged.startswith('[') else None
    return None
```

`re.findall(r'\[[\s\S]*?\]', text)` scans left to right: each match starts at
the next `'['` and ends at the first `']'` after it (the lazy star), and the
scan resumes after that `']'`.  `findArraysF` implements that scan; the fuel
argument only bounds the number of matches (each match consumes at least two
characters, so `length + 1` is ample) and keeps the recursion structural. -/

/-- The backtick character (code point 96). -/
def backquote : Char := Char.ofNat 96

/-- The scan behind `re.findall(r'\[[\s\S]*?\]', ·)`. -/
def findArraysF : Nat → List Char → List (List Char)
  | 0, _ => []
  | fuel + 1, l =>
    match l.dropWhile (fun c => !(c = '[')) with
    | [] => []
    | _ :: rest =>
      match rest.dropWhile (fun c => !(c = ']')) with
      | [] => []
      | _ :: rest2 =>
        ('[' :: (rest.takeWhile (fun c => !(c = ']')) ++ [']'])) ::
          findArraysF fuel rest2

/-- All matches of `re.findall(r'\[[\s\S]*?\]', ·)`. -/
def findArrays (l : List Char) : List (List Char) := findArraysF (l.length + 1) l

/-- The salvage path of `extract_last_json_array` (lines 72-94). -/
def salvageL (text : List Char) : Option (List Char) :=
  match text.dropWhile (fun c => !(c = '[')) with
  | [] => none
  | c :: rest =>
    let cand := c :: rest
    let cand1 :=
      if isSubL [']'] cand then cand
      else
        (if cand.count '}' < cand.count '{' then
          cand ++ List.replicate (cand.count '{' - cand.count '}') '}'
        else cand) ++ [']']
    let cand2 :=
      if isSubL ['}'] cand1 then
        (cand1.reverse.dropWhile (fun c => !(c = '}'))).reverse ++
          (cand1.reverse.takeWhile (fun c => !(c = '}'))).reverse.filter
            (fun c => c = ']')
      else cand1
    let salvaged := pyStripL cand2
    if startsWithL ['['] salvaged then some salvaged else none

/-- Lines 69-70: `if s.startswith("```"): s = s.strip('`').strip()`. -/
def fenceStrip (s : List Char) : List Char :=
  if startsWithL [backquote, backquote, backquote] s then
    pyStripL (pyStripChars (fun c => c = backquote) s)
  else s

/-- `extract_last_json_array` from the source. -/
def extract_last_json_array (text : String) : Option String :=
  if text = "" then none
  else
    match (findArrays text.data).getLast? with
    | some js => some ⟨fenceStrip (pyStripL js)⟩
    | none => (salvageL text.data).map (fun l => ⟨l⟩)

/-! ### Shape of the findall matches -/

theorem findArraysF_shape :
    ∀ fuel l js, js ∈ findArraysF fuel l → ∃ mid, js = '[' :: (mid ++ [']']) := by
  intro fuel
  induction fuel with
  | zero => intro l js h; simp [findArraysF] at h
  | succ fuel ih =>
    intro l js h
    simp only [findArraysF] at h
    match hdrop : l.dropWhile (fun c => !(c = '[')) with
    | [] => rw [hdrop] at h; simp at h
    | _ :: rest =>
      rw [hdrop] at h
      dsimp only at h
      match hdrop2 : rest.dropWhile (fun c => !(c = ']')) with
      | [] => rw [hdrop2] at h; simp at h
      | _ :: rest2 =>
        rw [hdrop2] at h
        dsimp only at h
        simp only [List.mem_cons] at h
        rcases h with h | h
        · exact ⟨rest.takeWhile (fun c => !(c = ']')), h⟩
        · exact ih rest2 js h

/-- Stripping is the identity whenever the two ends are not whitespace. -/
theorem pyStripL_eq_self (l : List Char)
    (hh : ∀ c, l.head? = some c → ¬ isPyWs c)
    (hl : ∀ c, l.getLast? = some c → ¬ isPyWs c) :
    pyStripL l = l := by
  have h1 : l.dropWhile isPyWs = l := by
    match l with
    | [] => simp
    | c :: cs =>
      have : ¬ isPyWs c := hh c rfl
      rw [List.dropWhile_cons_of_neg (by simpa using this)]
  have h2 : l.reverse.dropWhile isPyWs = l.reverse := by
    match hrev : l.reverse with
    | [] => simp
    | c :: cs =>
      have hc : l.getLast? = some c := by
        rw [← List.head?_reverse, hrev, List.head?_cons]
      have : ¬ isPyWs c := hl c hc
      rw [List.dropWhile_cons_of_neg (by simpa using this)]
  simp only [pyStripL, h1, h2, List.reverse_reverse]

/-- A findall match is returned by `extract_last_json_array` unchanged: it
starts with `'['` (so the fence branch is dead) and has non-whitespace ends
(so the strip is the identity). -/
theorem extract_match_path (text : String) (js : List Char)
    (h : (findArrays text.data).getLast? = some js) :
    extract_last_json_array text = some ⟨js⟩ := by
  have hmem : js ∈ findArrays text.data := List.mem_of_mem_getLast? h
  obtain ⟨mid, hshape⟩ := findArraysF_shape _ _ _ hmem
  have htext : ¬ (text = "") := by
    intro h0
    rw [h0] at h
    simp [findArrays, findArraysF] at h
  have hstrip : pyStripL js = js := by
    apply pyStripL_eq_self
    · intro c hc
      rw [hshape] at hc
      simp only [List.head?_cons, Option.some_inj] at hc
      subst hc
      decide
    · intro c hc
      rw [hshape, ← List.cons_append, List.getLast?_concat,
        Option.some_inj] at hc
      subst hc
      decide
  have hfence : startsWithL [backquote, backquote, backquote] js = false := by
    rw [hshape]
    simp only [startsWithL]
    have hb : ¬ (backquote = '[') := by decide
    simp [hb]
  unfold extract_last_json_array
  rw [if_neg htext, h]
  simp only [fenceStrip, hstrip, hfence, Bool.false_eq_true, if_false]

/-- Claim C8: `extract_last_json_array` returns the last findall match of the
bracketed-array pattern whenever one exists (the fence strip being vacuous on
a match, which always starts with `'['`), and on the spec's concrete input it
returns exactly the bracketed substring. -/
theorem C8_extract_last_match :
    (∀ text : String, ∀ js, (findArrays text.data).getLast? = some js →
      extract_last_json_array text = some ⟨js⟩) ∧
    extract_last_json_array
        "prefix [\x7b\"question\":\"Q1\",\"answer\":\"A1\"\x7d] suffix" =
      some "[\x7b\"question\":\"Q1\",\"answer\":\"A1\"\x7d]" := by
  refine ⟨fun text js h => extract_match_path text js h, ?_⟩
  decide

/-- Witness for C8: the general part applied at a concrete input. -/
theorem C8_extract_last_match_witness :
    extract_last_json_array "x [1] y [2] z" = some "[2]" :=
  C8_extract_last_match.1 "x [1] y [2] z" "[2]".data (by decide)

theorem isSubL_singleton (c : Char) :
    ∀ l : List Char, isSubL [c] l = true ↔ c ∈ l := by
  intro l
  induction l with
  | nil => simp [isSubL]
  | cons d ds ih =>
    have hpre : [c].isPrefixOf (d :: ds) = (c == d) := by
      simp [List.isPrefixOf]
    simp only [isSubL, Bool.or_eq_true, List.mem_cons, hpre, ih, beq_iff_eq]

/-- When the findall scan produced no match, there is no `']'` after the
first `'['`. -/
theorem findArrays_nil_no_rb (text : List Char)
    (hfa : findArrays text = []) (c : Char) (rest : List Char)
    (hdrop : text.dropWhile (fun c => !(c = '[')) = c :: rest) :
    rest.dropWhile (fun c => !(c = ']')) = [] := by
  unfold findArrays findArraysF at hfa
  rw [hdrop] at hfa
  dsimp only at hfa
  match hdrop2 : rest.dropWhile (fun c => !(c = ']')) with
  | [] => rfl
  | _ :: rest2 =>
    rw [hdrop2] at hfa
    dsimp only at hfa
    exact absurd hfa (by simp)

/-- The salvage path always produces a string that starts with `'['` and ends
with `']'` (under the reachability condition that findall found nothing). -/
theorem salvageL_shape (text : List Char) (hfa : findArrays text = [])
    (r : List Char) (h : salvageL text = some r) :
    r.head? = some '[' ∧ r.getLast? = some ']' := by
  unfold salvageL at h
  match hdrop : text.dropWhile (fun c => !(c = '[')) with
  | [] => rw [hdrop] at h; exact absurd h (by simp)
  | c :: rest =>
    rw [hdrop] at h
    dsimp only at h
    have hc : c = '[' := by
      have := head?_dropWhile_not (fun c => !(c = '[')) text c (by rw [hdrop]; rfl)
      simpa using this
    subst hc
    have hrestnb : ∀ x ∈ rest, ¬ (x = ']') := by
      have hnil := findArrays_nil_no_rb text hfa _ _ hdrop
      intro x hx
      have := (List.dropWhile_eq_nil_iff).mp hnil x hx
      simpa using this
    have hcandnb : ∀ x ∈ ('[' :: rest), ¬ (x = ']') := by
      intro x hx
      rcases List.mem_cons.mp hx with h1 | h1
      · subst h1; decide
      · exact hrestnb x h1
    have hsub : isSubL [']'] ('[' :: rest) = false := by
      rw [← Bool.not_eq_true, isSubL_singleton]
      intro hmem
      exact hcandnb _ hmem rfl
    rw [hsub] at h
    simp only [Bool.false_eq_true, if_false] at h
    -- cand1 = X ++ [']']  where X has no ']' and starts with '['
    set X : List Char := if ('[' :: rest).count '}' < ('[' :: rest).count '{' then
        ('[' :: rest) ++ List.replicate (('[' :: rest).count '{' - ('[' :: rest).count '}') '}'
      else ('[' :: rest) with hX
    have hXhead : X.head? = some '[' := by
      rw [hX]
      split
      · rw [List.head?_append_of_ne_nil _ (by simp)]
        rfl
      · rfl
    have hXnb : ∀ x ∈ X, ¬ (x = ']') := by
      rw [hX]
      intro x hx
      split at hx
      · rcases List.mem_append.mp hx with h1 | h1
        · exact hcandnb x h1
        · have := List.eq_of_mem_replicate h1
          subst this; decide
      · exact hcandnb x hx
    have hXne : X ≠ [] := by
      intro h0
      rw [h0] at hXhead
      exact absurd hXhead (by simp)
    by_cases hbr : isSubL ['}'] (X ++ [']']) = true
    · rw [hbr] at h
      rw [if_pos rfl] at h
      -- pre ++ tailF with tailF = [']']
      have hrev : (X ++ [']']).reverse = ']' :: X.reverse := by
        simp
      have htake : ((X ++ [']']).reverse.takeWhile (fun c => !(c = '}'))) =
          ']' :: (X.reverse.takeWhile (fun c => !(c = '}'))) := by
        rw [hrev, List.takeWhile_cons_of_pos (by decide)]
      have hfilter : (((X ++ [']']).reverse.takeWhile
            (fun c => !(c = '}'))).reverse).filter (fun c => c = ']') = [']'] := by
        rw [htake]
        simp only [List.reverse_cons, List.filter_append]
        have h1 : ((X.reverse.takeWhile (fun c => !(c = '}'))).reverse).filter
            (fun c => c = ']') = [] := by
          rw [List.filter_eq_nil_iff]
          intro a ha
          have ha2 : a ∈ X.reverse.takeWhile (fun c => !(c = '}')) := by
            rwa [List.mem_reverse] at ha
          have ha3 : a ∈ X.reverse := (List.takeWhile_prefix _).subset ha2
          have ha4 : a ∈ X := List.mem_reverse.mp ha3
          simpa using hXnb a ha4
        rw [h1]
        simp
      have hpre_ne : ((X ++ [']']).reverse.dropWhile (fun c => !(c = '}'))).reverse ≠ [] := by
        intro h0
        have h1 : (X ++ [']']).reverse.dropWhile (fun c => !(c = '}')) = [] := by
          have := congrArg List.reverse h0
          simpa using this
        have h2 := (List.dropWhile_eq_nil_iff).mp h1
        have h3 : '}' ∈ X ++ [']'] := (isSubL_singleton '}' _).mp hbr
        have h4 : '}' ∈ (X ++ [']']).reverse := List.mem_reverse.mpr h3
        have := h2 '}' h4
        simp at this
      have hsplit : ((X ++ [']']).reverse.dropWhile (fun c => !(c = '}'))).reverse ++
          ((X ++ [']']).reverse.takeWhile (fun c => !(c = '}'))).reverse = X ++ [']'] := by
        rw [← List.reverse_append, List.takeWhile_append_dropWhile, List.reverse_reverse]
      have hprehead : (((X ++ [']']).reverse.dropWhile (fun c => !(c = '}'))).reverse).head? =
          some '[' := by
        have h1 : (X ++ [']']).head? = some '[' := by
          rw [List.head?_append_of_ne_nil _ hXne, hXhead]
        rw [← hsplit, List.head?_append_of_ne_nil _ hpre_ne] at h1
        exact h1
      rw [hfilter] at h
      set pre : List Char := ((X ++ [']']).reverse.dropWhile (fun c => !(c = '}'))).reverse
      have hends : (pre ++ [']']).head? = some '[' ∧
          (pre ++ [']']).getLast? = some ']' := by
        constructor
        · rw [List.head?_append_of_ne_nil _ hpre_ne, hprehead]
        · exact List.getLast?_concat _
      have hstrip : pyStripL (pre ++ [']']) = pre ++ [']'] := by
        apply pyStripL_eq_self
        · intro d hd
          rw [hends.1, Option.some_inj] at hd
          subst hd; decide
        · intro d hd
          rw [hends.2, Option.some_inj] at hd
          subst hd; decide
      rw [hstrip] at h
      have hsw : startsWithL ['['] (pre ++ [']']) = true := by
        obtain ⟨t, ht⟩ : ∃ t, pre ++ [']'] = '[' :: t := by
          match h0 : pre ++ [']'] with
          | [] => rw [h0] at hends; exact absurd hends.1 (by simp)
          | d :: t =>
            rw [h0] at hends
            have : d = '[' := by
              have := hends.1
              simpa using this
            exact ⟨t, by rw [this]⟩
        rw [ht]
        simp [startsWithL]
      rw [hsw] at h
      rw [if_pos rfl] at h
      rw [Option.some_inj] at h
      rw [← h]
      exact hends
    · rw [Bool.not_eq_true] at hbr
      rw [hbr] at h
      simp only [Bool.false_eq_true, if_false] at h
      have hends : (X ++ [']']).head? = some '[' ∧
          (X ++ [']']).getLast? = some ']' := by
        constructor
        · rw [List.head?_append_of_ne_nil _ hXne, hXhead]
        · exact List.getLast?_concat _
      have hstrip : pyStripL (X ++ [']']) = X ++ [']'] := by
        apply pyStripL_eq_self
        · intro d hd
          rw [hends.1, Option.some_inj] at hd
          subst hd; decide
        · intro d hd
          rw [hends.2, Option.some_inj] at hd
          subst hd; decide
      rw [hstrip] at h
      have hsw : startsWithL ['['] (X ++ [']']) = true := by
        obtain ⟨t, ht⟩ : ∃ t, X ++ [']'] = '[' :: t := by
          match h0 : X ++ [']'] with
          | [] => rw [h0] at hends; exact absurd hends.1 (by simp)
          | d :: t =>
            rw [h0] at hends
            have : d = '[' := by
              have := hends.1
              simpa using this
            exact ⟨t, by rw [this]⟩
        rw [ht]
        simp [startsWithL]
      rw [hsw] at h
      rw [if_pos rfl] at h
      rw [Option.some_inj] at h
      rw [← h]
      exact hends

/-- Claim C10: whenever `extract_last_json_array` returns a result, the
result starts with `'['` and ends with `']'` — on the regex-match path and on
the salvage path alike. -/
theorem C10_extract_bracket_ends (text r : String)
    (h : extract_last_json_array text = some r) :
    r.data.head? = some '[' ∧ r.data.getLast? = some ']' := by
  by_cases htext : text = ""
  · rw [htext] at h
    simp [extract_last_json_array] at h
  · match hlast : (findArrays text.data).getLast? with
    | some js =>
      have := extract_match_path text js hlast
      rw [this, Option.some_inj] at h
      obtain ⟨mid, hshape⟩ := findArraysF_shape _ _ _ (List.mem_of_mem_getLast? hlast)
      subst h
      constructor
      · rw [hshape]; rfl
      · rw [hshape, ← List.cons_append, List.getLast?_concat]
    | none =>
      unfold extract_last_json_array at h
      rw [if_neg htext, hlast] at h
      dsimp only at h
      have hfa : findArrays text.data = [] := List.getLast?_eq_none_iff.mp hlast
      match hsal : salvageL text.data with
      | none => rw [hsal] at h; exact absurd h (by simp)
      | some l =>
        rw [hsal] at h
        simp only [Option.map] at h
        rw [Option.some_inj] at h
        have := salvageL_shape text.data hfa l hsal
        rw [← h]
        exact this

/-- Witness for C10: the theorem applied at a concrete input whose extraction
succeeds. -/
theorem C10_extract_bracket_ends_witness :
    ("[1]" : String).data.head? = some '[' ∧
      ("[1]" : String).data.getLast? = some ']' :=
  C10_extract_bracket_ends "x [1] y" "[1]" (by decide)

/-! ## JSON values and the decoder (`json` standard library model)

`try_json_loads` (utils.py lines 97-110) and `parse_json_array_lenient`
(lines 112-148) delegate to Python's `json` module.  The decoder below models
`json.JSONDecoder().raw_decode` with the default (strict) settings: objects,
arrays, strings with escapes, numbers, `true`/`false`/`null`, and the
non-standard `NaN`/`Infinity`/`-Infinity` constants.  Numbers are carried as
their lexeme (`jnum`), since no claim depends on numeric arithmetic; objects
are association lists in parse order (Python's `dict` keeps the last
occurrence of a duplicated key, which the lookup function `jGet` below
respects). -/

/-- A decoded JSON value. -/
inductive JValue where
  | jnull
  | jbool (b : Bool)
  | jnum (lex : String)
  | jstr (s : String)
  | jarr (elems : List JValue)
  | jobj (members : List (String × JValue))

/-- JSON structural whitespace (`json.decoder.WHITESPACE`). -/
def jsonWs (c : Char) : Bool := c = ' ' || c = '\t' || c = '\n' || c = '\r'

/-- Decimal digit test. -/
def isDigitC (c : Char) : Bool := '0' ≤ c && c ≤ '9'

/-- Hexadecimal digit value (on code points: 0-9, a-f, A-F). -/
def hexVal (c : Char) : Option Nat :=
  let n := c.toNat
  if n ≥ 48 && n ≤ 57 then some (n - 48)
  else if n ≥ 97 && n ≤ 102 then some (n - 87)
  else if n ≥ 65 && n ≤ 70 then some (n - 55)
  else none

/-- Read exactly four hex digits. -/
def readHex4 : List Char → Option (Nat × List Char)
  | a :: b :: c :: d :: rest =>
    match hexVal a, hexVal b, hexVal c, hexVal d with
    | some x, some y, some z, some w => some (((x * 16 + y) * 16 + z) * 16 + w, rest)
    | _, _, _, _ => none
  | _ => none

/-- The single-character JSON escapes. -/
def escChar (e : Char) : Option Char :=
  if e = '"' then some '"'
  else if e = '\\' then some '\\'
  else if e = '/' then some '/'
  else if e = 'b' then some '\x08'
  else if e = 'f' then some '\x0c'
  else if e = 'n' then some '\n'
  else if e = 'r' then some '\r'
  else if e = 't' then some '\t'
  else none

/-- Decode one escape sequence (input starts after the backslash).  Surrogate
pairs combine into one scalar; a lone surrogate, which Python would keep as an
unpaired code unit, is unrepresentable in a Lean `Char` and maps to U+FFFD
(no claim exercises that corner). -/
def escape : List Char → Option (Char × List Char)
  | [] => none
  | e :: rest =>
    if e = 'u' then
      match readHex4 rest with
      | none => none
      | some (n, rest2) =>
        if 0xD800 ≤ n && n ≤ 0xDBFF then
          match rest2 with
          | '\\' :: 'u' :: rest3 =>
            match readHex4 rest3 with
            | some (m, rest4) =>
              if 0xDC00 ≤ m && m ≤ 0xDFFF then
                some (Char.ofNat (0x10000 + (n - 0xD800) * 0x400 + (m - 0xDC00)), rest4)
              else some (Char.ofNat 0xFFFD, rest2)
            | none => some (Char.ofNat 0xFFFD, rest2)
          | _ => some (Char.ofNat 0xFFFD, rest2)
        else if 0xDC00 ≤ n && n ≤ 0xDFFF then some (Char.ofNat 0xFFFD, rest2)
        else some (Char.ofNat n, rest2)
    else (escChar e).map (fun c => (c, rest))

/-- The number lexeme, per `json.scanner.NUMBER_RE`:
`(-?(?:0|[1-9]\d*))(\.\d+)?([eE][-+]?\d+)?`.  The fractional and exponent
parts only join the lexeme when complete (`"1."` scans as `"1"`). -/
def parseNum (cs : List Char) : Option (List Char × List Char) :=
  let (sign, cs1) : List Char × List Char :=
    match cs with
    | '-' :: r => (['-'], r)
    | _ => ([], cs)
  match cs1 with
  | [] => none
  | d :: r =>
    if d = '0' then
      let intPart := sign ++ [d]
      some (numTail intPart r)
    else if isDigitC d then
      let intPart := sign ++ [d] ++ r.takeWhile isDigitC
      some (numTail intPart (r.dropWhile isDigitC))
    else none
where
  /-- Optional fraction then optional exponent. -/
  numTail (intPart : List Char) (r : List Char) : List Char × List Char :=
    let (withFrac, r1) : List Char × List Char :=
      match r with
      | '.' :: r2 =>
        if (r2.takeWhile isDigitC).isEmpty then (intPart, r)
        else (intPart ++ '.' :: r2.takeWhile isDigitC, r2.dropWhile isDigitC)
      | _ => (intPart, r)
    match r1 with
    | e :: r2 =>
      if e = 'e' || e = 'E' then
        let (sgn, r3) : List Char × List Char :=
          match r2 with
          | '+' :: r4 => (['+'], r4)
          | '-' :: r4 => (['-'], r4)
          | _ => ([], r2)
        if (r3.takeWhile isDigitC).isEmpty then (withFrac, r1)
        else (withFrac ++ e :: (sgn ++ r3.takeWhile isDigitC),
          r3.dropWhile isDigitC)
      else (withFrac, r1)
    | [] => (withFrac, r1)

mutual

/-- The string scanner (`json.decoder.py_scanstring`, strict mode): input
starts after the opening quote; returns the decoded characters and the rest
after the closing quote.  Unescaped control characters are rejected. -/
def parseStrF : Nat → List Char → Option (List Char × List Char)
  | 0, _ => none
  | fuel + 1, cs =>
    match cs with
    | [] => none
    | c :: rest =>
      if c = '"' then some ([], rest)
      else if c = '\\' then
        match escape rest with
        | none => none
        | some (ch, rest2) =>
          (parseStrF fuel rest2).map (fun p => (ch :: p.1, p.2))
      else if c.toNat < 0x20 then none
      else (parseStrF fuel rest).map (fun p => (c :: p.1, p.2))

/-- One JSON value at the current position (`json.scanner.py_make_scanner`):
no leading whitespace is skipped, matching `raw_decode`. -/
def parseValueF : Nat → List Char → Option (JValue × List Char)
  | 0, _ => none
  | fuel + 1, cs =>
    match cs with
    | [] => none
    | c :: rest =>
      if c = '"' then (parseStrF fuel rest).map (fun p => (JValue.jstr ⟨p.1⟩, p.2))
      else if c = '\x7b' then parseObjF fuel rest
      else if c = '[' then parseArrF fuel rest
      else if startsWithL "null".data cs then some (.jnull, cs.drop 4)
      else if startsWithL "true".data cs then some (.jbool true, cs.drop 4)
      else if startsWithL "false".data cs then some (.jbool false, cs.drop 5)
      else
        match parseNum cs with
        | some (lex, r) => some (.jnum ⟨lex⟩, r)
        | none =>
          if startsWithL "NaN".data cs then some (.jnum "NaN", cs.drop 3)
          else if startsWithL "Infinity".data cs then some (.jnum "Infinity", cs.drop 8)
          else if startsWithL "-Infinity".data cs then some (.jnum "-Infinity", cs.drop 9)
          else none

/-- Object body (`json.decoder.JSONObject`): input starts after the opening
brace. -/
def parseObjF : Nat → List Char → Option (JValue × List Char)
  | 0, _ => none
  | fuel + 1, cs =>
    match cs.dropWhile jsonWs with
    | '\x7d' :: r => some (.jobj [], r)
    | '"' :: r => parseMembersF fuel r []
    | _ => none

/-- Object members: input starts after the opening quote of the next key. -/
def parseMembersF : Nat → List Char → List (String × JValue) →
    Option (JValue × List Char)
  | 0, _, _ => none
  | fuel + 1, cs, acc =>
    match parseStrF fuel cs with
    | none => none
    | some (k, r1) =>
      match r1.dropWhile jsonWs with
      | ':' :: r2 =>
        match parseValueF fuel (r2.dropWhile jsonWs) with
        | none => none
        | some (v, r3) =>
          match r3.dropWhile jsonWs with
          | '\x7d' :: r4 => some (.jobj (acc ++ [(⟨k⟩, v)]), r4)
          | ',' :: r4 =>
            match r4.dropWhile jsonWs with
            | '"' :: r5 => parseMembersF fuel r5 (acc ++ [(⟨k⟩, v)])
            | _ => none
          | _ => none
      | _ => none

/-- Array body (`json.decoder.JSONArray`): input starts after the opening
bracket. -/
def parseArrF : Nat → List Char → Option (JValue × List Char)
  | 0, _ => none
  | fuel + 1, cs =>
    match cs.dropWhile jsonWs with
    | ']' :: r => some (.jarr [], r)
    | cs1 => parseElemsF fuel cs1 []

/-- Array elements: input starts at the next value. -/
def parseElemsF : Nat → List Char → List JValue → Option (JValue × List Char)
  | 0, _, _ => none
  | fuel + 1, cs, acc =>
    match parseValueF fuel cs with
    | none => none
    | some (v, r1) =>
      match r1.dropWhile jsonWs with
      | ']' :: r2 => some (.jarr (acc ++ [v]), r2)
      | ',' :: r2 => parseElemsF fuel (r2.dropWhile jsonWs) (acc ++ [v])
      | _ => none

end

/-- `json.JSONDecoder().raw_decode` at position 0 of the given suffix: the
fuel `3 * length + 3` is ample, since every three fuel steps consume at least
one character. -/
def raw_decode (cs : List Char) : Option (JValue × List Char) :=
  parseValueF (3 * cs.length + 3) cs

/-- `json.loads`: skip whitespace, decode one value, require only whitespace
to remain. -/
def jsonLoads (l : List Char) : Option JValue :=
  match raw_decode (l.dropWhile jsonWs) with
  | none => none
  | some (v, rest) => if rest.dropWhile jsonWs = [] then some v else none

/-- `try_json_loads` from the source (lines 97-110). -/
def try_json_loads (s : String) : Option JValue :=
  if s = "" then none
  else
    let l := pyStripL s.data
    let l := pyStripL (l.dropWhile (fun c => c = '﻿'))
    let l := if startsWithL [backquote, backquote] l then
        pyStripL (pyStripChars (fun c => c = backquote) l)
      else l
    jsonLoads l

/-! ## `parse_json_array_lenient` (utils.py lines 112-148) -/

/-- Python `s.find(c)` as an optional index. -/
def pyFind (c : Char) (l : List Char) : Option Nat := l.findIdx? (fun x => x = c)

/-- Python `s.rfind(c)` as an optional index. -/
def pyRFind (c : Char) (l : List Char) : Option Nat :=
  (l.reverse.findIdx? (fun x => x = c)).map (fun i => l.length - 1 - i)

/-- The loop's separator set `' \t\r\n,'`. -/
def lenSkip (l : List Char) : List Char :=
  l.dropWhile (fun c => c = ' ' || c = '\t' || c = '\r' || c = '\n' || c = ',')

/-- The decode loop: skip separators, decode one value, stop at the first
failure.  The fuel `length + 1` is ample since every successful decode
consumes at least one character. -/
def lenLoopF : Nat → List Char → List JValue → List JValue
  | 0, _, acc => acc
  | fuel + 1, cs, acc =>
    match lenSkip cs with
    | [] => acc
    | cs1 =>
      match raw_decode cs1 with
      | none => acc
      | some (v, rest) => lenLoopF fuel rest (acc ++ [v])

/-- `inner = s[start+1:end]` with `end = s.rfind(']')` (or the whole tail when
there is no closing bracket). -/
def lenientInner (t : List Char) (start : Nat) : List Char :=
  match pyRFind ']' t with
  | some e => (t.drop (start + 1)).take (e - (start + 1))
  | none => t.drop (start + 1)

/-- The recovered items of the lenient parse. -/
def lenientItems (t : List Char) (start : Nat) : List JValue :=
  lenLoopF ((lenientInner t start).length + 1) (lenientInner t start) []

/-- `parse_json_array_lenient` from the source. -/
def parse_json_array_lenient (s : String) : Option (List JValue) :=
  if s = "" then none
  else
    match pyFind '[' (pyStripL s.data) with
    | none => none
    | some start =>
      if (lenientItems (pyStripL s.data) start).isEmpty then none
      else some (lenientItems (pyStripL s.data) start)

/-- Claim C7: the lenient parser decodes objects sequentially and stops at
the first decode failure.  On the spec's truncated input it recovers exactly
the first object; on an input with garbage between two objects it does not
skip ahead to the later object; and it never returns an empty list (zero
decoded objects yield `none`). -/
theorem C7_parse_lenient_stops_at_failure :
    parse_json_array_lenient
        "[\x7b\"question\":\"Q1\",\"answer\":\"A1\"\x7d,\x7b\"question\":\"Q2\"" =
      some [JValue.jobj [("question", JValue.jstr "Q1"),
        ("answer", JValue.jstr "A1")]] ∧
    parse_json_array_lenient "[\x7b\"a\":\"x\"\x7d, oops, \x7b\"b\":\"y\"\x7d]" =
      some [JValue.jobj [("a", JValue.jstr "x")]] ∧
    ∀ s : String, 1 ≤ ((parse_json_array_lenient s).getD [JValue.jnull]).length := by
  refine ⟨rfl, rfl, ?_⟩
  intro s
  unfold parse_json_array_lenient
  split
  · simp
  · split
    · simp
    · rename_i start heq
      split
      · simp
      · rename_i hne
        simp only [Option.getD_some]
        cases h0 : lenientItems (pyStripL s.data) start with
        | nil => rw [h0] at hne; simp at hne
        | cons v vs => simp

/-! ## A small backtracking regex engine

CPython's `re` module resolves a pattern by backtracking: alternatives are
tried left to right, greedy repetitions prefer more iterations and lazy ones
fewer, and the first complete path wins.  `reRun` reproduces exactly that
search order by producing the list of all outcome states in priority order;
`reMatch` (the model of anchored `re.match`) takes the head.  The fuel is
structural bookkeeping only: every repetition either consumes a character or
stops (all repetition bodies in the source's patterns consume), so the
generous fuel supplied by `reMatch` is never exhausted. -/

/-- An engine state: the previous character (for `\b`), the remaining input,
and the captures recorded so far. -/
structure MState where
  prev : Option Char
  rest : List Char
  caps : List (Nat × List Char)

/-- Patterns: the fragment the source uses.  `repG`/`repL` are the greedy and
lazy bounded repetitions `{lo,hi}` / `{lo,hi}?`; `wb` is `\b`; `eos` is `$`
(end of input, or just before a final newline). -/
inductive RE where
  | eps
  | cls (p : Char → Bool)
  | seq (a b : RE)
  | alt (a b : RE)
  | starG (a : RE)
  | starL (a : RE)
  | repG (a : RE) (lo hi : Nat)
  | repL (a : RE) (lo hi : Nat)
  | grp (i : Nat) (a : RE)
  | wb
  | eos

/-- Word characters for `\b` (ASCII model of the Unicode word class):
letters, digits and the underscore, by code point. -/
def isWordC (c : Char) : Bool :=
  let n := c.toNat
  (n ≥ 65 && n ≤ 90) || (n ≥ 97 && n ≤ 122) || (n ≥ 48 && n ≤ 57) || n = 95

/-- `\b` holds between a word and a non-word position. -/
def atBoundary (st : MState) : Bool :=
  (match st.prev with | some c => isWordC c | none => false) !=
    (match st.rest with | c :: _ => isWordC c | [] => false)

/-- Record capture group `i` as the span consumed between `st` and `st2`. -/
def addCap (i : Nat) (st st2 : MState) : MState :=
  { st2 with caps := (i, st.rest.take (st.rest.length - st2.rest.length)) :: st2.caps }

/-- All outcome states of a pattern at a state, in backtracking priority
order. -/
def reRun : Nat → RE → MState → List MState
  | 0, _, _ => []
  | fuel + 1, re, st =>
    match re with
    | .eps => [st]
    | .cls p =>
      match st.rest with
      | [] => []
      | c :: cs => if p c then [⟨some c, cs, st.caps⟩] else []
    | .seq a b => (reRun fuel a st).flatMap (fun st2 => reRun fuel b st2)
    | .alt a b => reRun fuel a st ++ reRun fuel b st
    | .starG a =>
      (((reRun fuel a st).filter (fun st2 => st2.rest.length < st.rest.length)).flatMap
        (fun st2 => reRun fuel (.starG a) st2)) ++ [st]
    | .starL a =>
      st :: (((reRun fuel a st).filter
          (fun st2 => st2.rest.length < st.rest.length)).flatMap
        (fun st2 => reRun fuel (.starL a) st2))
    | .repG a lo hi =>
      match lo, hi with
      | 0, 0 => [st]
      | _ + 1, 0 => []
      | 0, h + 1 =>
        ((reRun fuel a st).flatMap (fun st2 => reRun fuel (.repG a 0 h) st2)) ++ [st]
      | l + 1, h + 1 => (reRun fuel a st).flatMap (fun st2 => reRun fuel (.repG a l h) st2)
    | .repL a lo hi =>
      match lo, hi with
      | 0, 0 => [st]
      | _ + 1, 0 => []
      | 0, h + 1 =>
        st :: ((reRun fuel a st).flatMap (fun st2 => reRun fuel (.repL a 0 h) st2))
      | l + 1, h + 1 => (reRun fuel a st).flatMap (fun st2 => reRun fuel (.repL a l h) st2)
    | .grp i a => (reRun fuel a st).map (fun st2 => addCap i st st2)
    | .wb => if atBoundary st then [st] else []
    | .eos =>
      match st.rest with
      | [] => [st]
      | ['\n'] => [st]
      | _ => []

/-- A crude size measure used only to pick an ample fuel. -/
def reCost : RE → Nat
  | .eps => 1
  | .cls _ => 1
  | .seq a b => reCost a + reCost b + 1
  | .alt a b => reCost a + reCost b + 1
  | .starG a => reCost a + 2
  | .starL a => reCost a + 2
  | .repG a _ hi => (hi + 1) * (reCost a + 2) + 1
  | .repL a _ hi => (hi + 1) * (reCost a + 2) + 1
  | .grp _ a => reCost a + 1
  | .wb => 1
  | .eos => 1

/-- `re.match(pattern, s)`: anchored at the start, first outcome wins. -/
def reMatch (re : RE) (l : List Char) : Option MState :=
  (reRun ((reCost re + 2) * (l.length + 2)) re ⟨none, l, []⟩).head?

/-- `m.group(i)`. -/
def capGet (st : MState) (i : Nat) : Option (List Char) :=
  (st.caps.find? (fun p => p.1 = i)).map (fun p => p.2)

/-- `re.search`: try every start position, left to right. -/
def reSearchFrom : Nat → RE → Option Char → List Char → Bool
  | 0, _, _, _ => false
  | fuel + 1, re, prev, l =>
    match (reRun ((reCost re + 2) * (l.length + 2)) re ⟨prev, l, []⟩).head? with
    | some _ => true
    | none =>
      match l with
      | [] => false
      | c :: cs => reSearchFrom fuel re (some c) cs

/-- Truthiness of `re.search(pattern, s)`. -/
def reSearch (re : RE) (l : List Char) : Bool := reSearchFrom (l.length + 1) re none l

/-- `re.findall` (whole-match spans, no groups): leftmost matches, scan
resumes after each match; an empty match advances one position. -/
def reFindAllF : Nat → RE → Option Char → List Char → List (List Char)
  | 0, _, _, _ => []
  | fuel + 1, re, prev, l =>
    match (reRun ((reCost re + 2) * (l.length + 2)) re ⟨prev, l, []⟩).head? with
    | some st2 =>
      match l.length - st2.rest.length, l with
      | 0, [] => [[]]
      | 0, c :: cs => [] :: reFindAllF fuel re (some c) cs
      | _ + 1, _ => (l.take (l.length - st2.rest.length)) ::
          reFindAllF fuel re st2.prev st2.rest
    | none =>
      match l with
      | [] => []
      | c :: cs => reFindAllF fuel re (some c) cs

/-- `re.findall` from the start of the input. -/
def reFindAll (re : RE) (l : List Char) : List (List Char) :=
  reFindAllF (l.length + 1) re none l

/-- `re.sub(pattern, '', s)` for a `^`-anchored pattern: such a pattern can
only match at position 0 (no MULTILINE flag anywhere in the source), so the
substitution deletes the matched span there, if any. -/
def reSubAnchored (re : RE) (l : List Char) : List Char :=
  match reMatch re l with
  | some st2 => st2.rest
  | none => l

/-! ### Pattern constructors -/

/-- A literal character. -/
def lit1 (c : Char) : RE := .cls (fun x => x = c)

/-- A case-insensitive literal character. -/
def lit1CI (c : Char) : RE := .cls (fun x => x.toLower = c.toLower)

/-- A literal string. -/
def litL : List Char → RE
  | [] => .eps
  | c :: cs => .seq (lit1 c) (litL cs)

/-- A case-insensitive literal string. -/
def litCI : List Char → RE
  | [] => .eps
  | c :: cs => .seq (lit1CI c) (litCI cs)

/-- `x+` (greedy). -/
def plusG (a : RE) : RE := .seq a (.starG a)

/-- `x?` (greedy). -/
def optG (a : RE) : RE := .alt a .eps

/-- `x{n,}` (greedy): `n` copies then a greedy star. -/
def repAtLeast : RE → Nat → RE
  | a, 0 => .starG a
  | a, n + 1 => .seq a (repAtLeast a n)

/-- `\s` (Python whitespace). -/
def wsC : RE := .cls isPyWs

/-- `.` (any character but newline; no DOTALL flag in the source). -/
def anyNoNL : RE := .cls (fun c => !(c = '\n'))

/-! ## `_fallback_flashcards` internals: `normalize_subject` and `derive_qa`
(utils.py lines 182-237) -/

/-- ASCII letter test (`[A-Za-z]`). -/
def isAlpha (c : Char) : Bool := ('A' ≤ c && c ≤ 'Z') || ('a' ≤ c && c ≤ 'z')

/-- ASCII alphanumeric test (`[A-Za-z0-9]`). -/
def isAlnum (c : Char) : Bool := isAlpha c || ('0' ≤ c && c ≤ '9')

/-- `[A-Za-z\-]`. -/
def isAlphaDash (c : Char) : Bool := isAlpha c || c = '-'

/-- `^(?:In|On|At|During|Within|From)\s+[^,]+,\s*` with `re.I` (line 184). -/
def normPfx1RE : RE :=
  .seq (.alt (litCI "In".data) (.alt (litCI "On".data) (.alt (litCI "At".data)
      (.alt (litCI "During".data) (.alt (litCI "Within".data)
        (litCI "From".data))))))
    (.seq (plusG wsC)
      (.seq (plusG (.cls (fun c => !(c = ','))))
        (.seq (lit1 ',') (.starG wsC))))

/-- `^(?:an?|the)\s+` with `re.I` (line 185). -/
def normPfx2RE : RE :=
  .seq (.alt (.seq (lit1CI 'a') (optG (lit1CI 'n'))) (litCI "the".data))
    (plusG wsC)

/-- `normalize_subject` (lines 182-188): strip, strip the punctuation set,
delete a leading prepositional clause and a leading article, then upper-case
the first character when the subject is short. -/
def normalize_subject (subj : String) : String :=
  let l := pyStripL subj.data
  let l := pyStripChars (fun c => c = ' ' || c = '.' || c = ',' || c = ':' ||
    c = ';' || c = '\t' || c = '\n' || c = '\r') l
  let l := reSubAnchored normPfx1RE l
  let l := reSubAnchored normPfx2RE l
  if l.length ≤ 60 then
    match l with
    | [] => ""
    | c :: cs => ⟨c.toUpper :: cs⟩
  else ⟨l⟩

/-- `^\s*([^:\-]{2,80})\s*[:\-]\s+(.+)$` (line 194). -/
def rule1RE : RE :=
  .seq (.starG wsC)
    (.seq (.grp 1 (.repG (.cls (fun c => !(c = ':') && !(c = '-'))) 2 80))
      (.seq (.starG wsC)
        (.seq (.cls (fun c => c = ':' || c = '-'))
          (.seq (plusG wsC)
            (.seq (.grp 2 (plusG anyNoNL)) .eos)))))

/-- `\b(s|S)\b$|\band\b` (line 199, no flags). -/
def qverbRE : RE :=
  .alt (.seq .wb (.seq (.grp 1 (.alt (lit1 's') (lit1 'S'))) (.seq .wb .eos)))
    (.seq .wb (.seq (litL "and".data) .wb))

/-- The verb picked for a rule-1 question (line 199). -/
def rule1Verb (subj : String) : String :=
  if reSearch qverbRE subj.data || pyEndsWith "s" (pyLower subj) then "are"
  else "is"

/-- `^\s*(?:In\s+[^,]+,\s*)?(?:The\s+|An\s+|A\s+)?([^.!?]{2,80}?)\s+VERB\s+(.+)$`
with `re.I` (lines 204 and 211, for `is` and `are`). -/
def copulaRE (verb : List Char) : RE :=
  .seq (.starG wsC)
    (.seq (optG (.seq (litCI "In".data)
        (.seq (plusG wsC)
          (.seq (plusG (.cls (fun c => !(c = ','))))
            (.seq (lit1 ',') (.starG wsC))))))
      (.seq (optG (.alt (.seq (litCI "The".data) (plusG wsC))
          (.alt (.seq (litCI "An".data) (plusG wsC))
            (.seq (litCI "A".data) (plusG wsC)))))
        (.seq (.grp 1 (.repL (.cls (fun c => !(c = '.') && !(c = '!') &&
            !(c = '?'))) 2 80))
          (.seq (plusG wsC)
            (.seq (litCI verb)
              (.seq (plusG wsC)
                (.seq (.grp 2 (plusG anyNoNL)) .eos)))))))

/-- `^\s*(?:The\s+|An\s+|A\s+)?([^.!?]{2,80}?)\s+(means|refers to|stands for|is defined as)\s+(.+)$`
with `re.I` (line 219). -/
def rule4RE : RE :=
  .seq (.starG wsC)
    (.seq (optG (.alt (.seq (litCI "The".data) (plusG wsC))
        (.alt (.seq (litCI "An".data) (plusG wsC))
          (.seq (litCI "A".data) (plusG wsC)))))
      (.seq (.grp 1 (.repL (.cls (fun c => !(c = '.') && !(c = '!') &&
          !(c = '?'))) 2 80))
        (.seq (plusG wsC)
          (.seq (.grp 2 (.alt (litCI "means".data)
              (.alt (litCI "refers to".data)
                (.alt (litCI "stands for".data) (litCI "is defined as".data)))))
            (.seq (plusG wsC)
              (.seq (.grp 3 (plusG anyNoNL)) .eos))))))

/-- `[A-Za-z0-9]+(?:'[A-Za-z0-9]+)?` (line 231). -/
def word5RE : RE :=
  .seq (plusG (.cls isAlnum))
    (optG (.seq (lit1 (Char.ofNat 39)) (plusG (.cls isAlnum))))

/-- `\b[A-Za-z][A-Za-z\-]{n,}\b` (lines 251 and 266, with `n` = 2 and 3). -/
def wordTokRE (n : Nat) : RE :=
  .seq .wb (.seq (.cls isAlpha) (.seq (repAtLeast (.cls isAlphaDash) n) .wb))

/-- Rule 1 of `derive_qa` (lines 194-202): colon/dash definition. -/
def deriveRule1 (s : List Char) : Option (String × String) :=
  match reMatch rule1RE s with
  | none => none
  | some st =>
    match capGet st 1, capGet st 2 with
    | some subjRaw, some rest =>
      let subj := normalize_subject ⟨subjRaw⟩
      if subj = "" then none
      else
        let qverb := rule1Verb subj
        let question := "What " ++ qverb ++ " " ++ subj ++ "?"
        let answer := pyStrip (subj ++ " " ++ qverb ++ " " ++ ⟨rest⟩)
        some (sTake 120 question, sTake 300 answer)
    | _, _ => none

/-- Rules 2 and 3 (lines 204-217): copula `is`/`are`. -/
def deriveCopula (verb : String) (re : RE) (s : List Char) :
    Option (String × String) :=
  match reMatch re s with
  | none => none
  | some st =>
    match capGet st 1, capGet st 2 with
    | some subjRaw, some pred =>
      let subj := normalize_subject ⟨subjRaw⟩
      some (sTake 120 ("What " ++ verb ++ " " ++ subj ++ "?"),
        sTake 300 (subj ++ " " ++ verb ++ " " ++ ⟨pred⟩))
    | _, _ => none

/-- Rule 4 (lines 219-229): definitional verbs. -/
def deriveRule4 (s : List Char) : Option (String × String) :=
  match reMatch rule4RE s with
  | none => none
  | some st =>
    match capGet st 1, capGet st 2, capGet st 3 with
    | some subjRaw, some verbRaw, some rest =>
      let subj := normalize_subject ⟨subjRaw⟩
      let verb := pyLower ⟨verbRaw⟩
      if verb = "means" || verb = "refers to" || verb = "is defined as" then
        some (sTake 120 ("What is " ++ subj ++ "?"),
          sTake 300 (subj ++ " " ++ verb ++ " " ++ ⟨rest⟩))
      else
        some (sTake 120 ("What does " ++ subj ++ " stand for?"),
          sTake 300 (subj ++ " stands for " ++ ⟨rest⟩))
    | _, _, _ => none

/-- Rule 5 (lines 231-237): total fallback from the first word tokens. -/
def deriveRule5 (s : List Char) : String × String :=
  let words := reFindAll word5RE s
  let topic := if words.isEmpty then "this topic"
    else (⟨List.intercalate [' '] (words.take 5)⟩ : String)
  let topic := normalize_subject topic
  let qverb := if pyEndsWith "s" topic then "are" else "is"
  (sTake 120 ("What " ++ qverb ++ " " ++ topic ++ "?"), sTake 300 ⟨s⟩)

/-- The rule cascade of `derive_qa` on the stripped sentence (rule 1 falls
through when its normalized subject is empty, since the `return` on line 202
is guarded by `if subj:`). -/
def deriveRules (s : List Char) : String × String :=
  match deriveRule1 s with
  | some qa => qa
  | none =>
    match deriveCopula "is" (copulaRE "is".data) s with
    | some qa => qa
    | none =>
      match deriveCopula "are" (copulaRE "are".data) s with
      | some qa => qa
      | none =>
        match deriveRule4 s with
        | some qa => qa
        | none => deriveRule5 s

/-- `derive_qa` (lines 190-237): strip, reject short sentences, then try the
rules in order; rule 5 is a total fallback. -/
def derive_qa (sentence : String) : Option (String × String) :=
  if (pyStripL sentence.data).length < 10 then none
  else some (deriveRules (pyStripL sentence.data))

/-! ### Claim C6: totality and output bounds of `derive_qa` -/

theorem sTake_length_le (n : Nat) (s : String) : (sTake n s).length ≤ n := by
  show (s.data.take n).length ≤ n
  rw [List.length_take]
  exact Nat.min_le_left _ _

theorem deriveRule1_bounds (s : List Char) (qa : String × String)
    (h : deriveRule1 s = some qa) : qa.1.length ≤ 120 ∧ qa.2.length ≤ 300 := by
  unfold deriveRule1 at h
  split at h
  · cases h
  · split at h
    · dsimp only at h
      split at h
      · cases h
      · rw [Option.some_inj] at h
        subst h
        exact ⟨sTake_length_le _ _, sTake_length_le _ _⟩
    · cases h

theorem deriveCopula_bounds (verb : String) (re : RE) (s : List Char)
    (qa : String × String) (h : deriveCopula verb re s = some qa) :
    qa.1.length ≤ 120 ∧ qa.2.length ≤ 300 := by
  unfold deriveCopula at h
  split at h
  · cases h
  · split at h
    · rw [Option.some_inj] at h
      subst h
      exact ⟨sTake_length_le _ _, sTake_length_le _ _⟩
    · cases h

theorem deriveRule4_bounds (s : List Char) (qa : String × String)
    (h : deriveRule4 s = some qa) : qa.1.length ≤ 120 ∧ qa.2.length ≤ 300 := by
  unfold deriveRule4 at h
  split at h
  · cases h
  · split at h
    · dsimp only at h
      split at h
      · rw [Option.some_inj] at h
        subst h
        exact ⟨sTake_length_le _ _, sTake_length_le _ _⟩
      · rw [Option.some_inj] at h
        subst h
        exact ⟨sTake_length_le _ _, sTake_length_le _ _⟩
    · cases h

theorem deriveRule5_bounds (s : List Char) :
    (deriveRule5 s).1.length ≤ 120 ∧ (deriveRule5 s).2.length ≤ 300 :=
  ⟨sTake_length_le _ _, sTake_length_le _ _⟩

theorem deriveRules_bounds (s : List Char) :
    (deriveRules s).1.length ≤ 120 ∧ (deriveRules s).2.length ≤ 300 := by
  unfold deriveRules
  split
  · exact deriveRule1_bounds s _ (by assumption)
  · split
    · exact deriveCopula_bounds _ _ s _ (by assumption)
    · split
      · exact deriveCopula_bounds _ _ s _ (by assumption)
      · split
        · exact deriveRule4_bounds s _ (by assumption)
        · exact deriveRule5_bounds s

/-- Claim C6, amended: the length test is applied to the *stripped* sentence
(`s = sentence.strip()` on line 191 precedes the length check), so the
guarantee holds for every sentence whose stripped form has at least 10
characters; such sentences always get a (question, answer) pair with the
question at most 120 and the answer at most 300 characters, and sentences
whose stripped form is shorter than 10 characters yield `none`. -/
theorem C6_derive_qa_total_bounded (sentence : String) :
    (10 ≤ (pyStrip sentence).length →
      ∃ q a, derive_qa sentence = some (q, a) ∧
        q.length ≤ 120 ∧ a.length ≤ 300) ∧
    ((pyStrip sentence).length < 10 → derive_qa sentence = none) := by
  constructor
  · intro hge
    have hlen : ¬ ((pyStripL sentence.data).length < 10) := by
      have : (pyStrip sentence).length = (pyStripL sentence.data).length := rfl
      omega
    refine ⟨(deriveRules (pyStripL sentence.data)).1,
      (deriveRules (pyStripL sentence.data)).2, ?_, ?_, ?_⟩
    · unfold derive_qa
      rw [if_neg hlen]
    · exact (deriveRules_bounds _).1
    · exact (deriveRules_bounds _).2
  · intro hlt
    have hlen : (pyStripL sentence.data).length < 10 := by
      have : (pyStrip sentence).length = (pyStripL sentence.data).length := rfl
      omega
    unfold derive_qa
    rw [if_pos hlen]

/-- Witness for C6 at concrete inputs on both sides of the threshold. -/
theorem C6_derive_qa_total_bounded_witness :
    (∃ q a, derive_qa "Photosynthesis is great" = some (q, a) ∧
      q.length ≤ 120 ∧ a.length ≤ 300) ∧ derive_qa "ab" = none :=
  ⟨(C6_derive_qa_total_bounded "Photosynthesis is great").1 (by decide),
    (C6_derive_qa_total_bounded "ab").2 (by decide)⟩

/-- Counterexample to C6 as frozen: the sentence `"a"` followed by nine
spaces has 10 characters, yet `derive_qa` returns `none`, because the code
strips the sentence before measuring its length. -/
theorem C6_counterexample_unstripped_length :
    ("a         " : String).length = 10 ∧ derive_qa "a         " = none :=
  ⟨rfl, rfl⟩

/-! ## `assign_options_random` (utils.py lines 151-173)

```python
def assign_options_random(correct, wrongs):
    wrongs = [w for w in wrongs if w and str(w).strip()]
    pool = list(map(str, wrongs))
    while len(pool) < 3:
        pool.append("Option")
    pool = pool[:3]
    slots = [None, None, None, None]
    correct_idx = random.randint(0, 3)
    slots[correct_idx] = str(correct)
    wi = 0
    for i in range(4):
        if slots[i] is None:
            slots[i] = pool[wi]
            wi += 1
    letters = ['A', 'B', 'C', 'D']
    return {...}
```

The `random.randint(0, 3)` draw is passed in as `idx : Fin 4`. -/

/-- The MCQ option record returned by `assign_options_random`. -/
structure OptRec where
  option_a : String
  option_b : String
  option_c : String
  option_d : String
  correct_option : String
deriving DecidableEq, Repr

/-- The truthy-and-nonblank filter of line 152 (`if w and str(w).strip()`). -/
def filterWrongs (wrongs : List String) : List String :=
  wrongs.filter (fun w => !(w = "") && !(pyStrip w = ""))

/-- Lines 154-157: pad with `"Option"` to three entries, truncate extras. -/
def padPool : List String → List String
  | [] => ["Option", "Option", "Option"]
  | [a] => [a, "Option", "Option"]
  | [a, b] => [a, b, "Option"]
  | a :: b :: c :: _ => [a, b, c]

/-- Lines 158-165: the correct answer takes the drawn slot, the three pool
entries fill the remaining slots in order. -/
def assignFrom (correct p0 p1 p2 : String) : Fin 4 → OptRec
  | ⟨0, _⟩ => ⟨correct, p0, p1, p2, "A"⟩
  | ⟨1, _⟩ => ⟨p0, correct, p1, p2, "B"⟩
  | ⟨2, _⟩ => ⟨p0, p1, correct, p2, "C"⟩
  | ⟨3, _⟩ => ⟨p0, p1, p2, correct, "D"⟩

/-- `assign_options_random` with the random draw made explicit. -/
def assign_options_random (correct : String) (wrongs : List String)
    (idx : Fin 4) : OptRec :=
  match padPool (filterWrongs wrongs) with
  | [p0, p1, p2] => assignFrom correct p0 p1 p2 idx
  | _ => assignFrom correct "Option" "Option" "Option" idx

/-- The four option slots in order. -/
def optionSlots (r : OptRec) : List String :=
  [r.option_a, r.option_b, r.option_c, r.option_d]

/-- The slot named by a letter. -/
def slotOf (r : OptRec) (letter : String) : String :=
  if letter = "A" then r.option_a
  else if letter = "B" then r.option_b
  else if letter = "C" then r.option_c
  else r.option_d

theorem padPool_shape (l : List String) :
    ∃ p0 p1 p2, padPool l = [p0, p1, p2] := by
  match l with
  | [] => exact ⟨_, _, _, rfl⟩
  | [a] => exact ⟨_, _, _, rfl⟩
  | [a, b] => exact ⟨_, _, _, rfl⟩
  | a :: b :: c :: _ => exact ⟨_, _, _, rfl⟩

/-- Claim C4, amended: all four slots are filled, `correct_option` is one of
A-D and names exactly the slot holding the correct string; but a slot count
of exactly one for the correct string holds only when no effective distractor
(the padded pool) equals the correct string — the code never enforces
distinctness from `correct`, so duplicates are possible
(see the counterexample). -/
theorem C4_assign_options_slots (correct : String) (wrongs : List String)
    (idx : Fin 4) :
    (optionSlots (assign_options_random correct wrongs idx)).length = 4 ∧
    (assign_options_random correct wrongs idx).correct_option ∈
      (["A", "B", "C", "D"] : List String) ∧
    slotOf (assign_options_random correct wrongs idx)
      ((assign_options_random correct wrongs idx).correct_option) = correct ∧
    (correct ∉ padPool (filterWrongs wrongs) →
      (optionSlots (assign_options_random correct wrongs idx)).count correct = 1) :=
  by
  obtain ⟨p0, p1, p2, hp⟩ := padPool_shape (filterWrongs wrongs)
  have hassign : assign_options_random correct wrongs idx =
      assignFrom correct p0 p1 p2 idx := by
    unfold assign_options_random
    rw [hp]
  refine ⟨?_, ?_, ?_, ?_⟩
  · rfl
  · rw [hassign]
    match idx with
    | ⟨0, _⟩ => simp [assignFrom]
    | ⟨1, _⟩ => simp [assignFrom]
    | ⟨2, _⟩ => simp [assignFrom]
    | ⟨3, _⟩ => simp [assignFrom]
  · rw [hassign]
    match idx with
    | ⟨0, _⟩ => simp [assignFrom, slotOf]
    | ⟨1, _⟩ => simp [assignFrom, slotOf]
    | ⟨2, _⟩ => simp [assignFrom, slotOf]
    | ⟨3, _⟩ => simp [assignFrom, slotOf]
  · intro hnot
    rw [hp] at hnot
    simp only [List.mem_cons, List.not_mem_nil, or_false, not_or] at hnot
    obtain ⟨h0, h1, h2⟩ := hnot
    rw [hassign]
    match idx with
    | ⟨0, _⟩ =>
      simp [assignFrom, optionSlots, List.count_cons, Ne.symm h0,
        Ne.symm h1, Ne.symm h2, h0, h1, h2]
    | ⟨1, _⟩ =>
      simp [assignFrom, optionSlots, List.count_cons, Ne.symm h0,
        Ne.symm h1, Ne.symm h2, h0, h1, h2]
    | ⟨2, _⟩ =>
      simp [assignFrom, optionSlots, List.count_cons, Ne.symm h0,
        Ne.symm h1, Ne.symm h2, h0, h1, h2]
    | ⟨3, _⟩ =>
      simp [assignFrom, optionSlots, List.count_cons, Ne.symm h0,
        Ne.symm h1, Ne.symm h2, h0, h1, h2]

/-- Witness for C4 at a concrete input with distinct distractors. -/
theorem C4_assign_options_slots_witness :
    (optionSlots (assign_options_random "x" ["aa", "bb", "cc"] 2)).count "x" = 1 :=
  (C4_assign_options_slots "x" ["aa", "bb", "cc"] 2).2.2.2 (by decide)

/-- Counterexample to C4 as frozen: with an empty `wrongs` list the pool is
padded with the placeholder `"Option"`, so calling the function with the
correct string `"Option"` fills every slot with `"Option"` — not exactly one
slot equals the correct answer. -/
theorem C4_counterexample_duplicate_correct :
    ¬ ((optionSlots (assign_options_random "Option" [] 0)).count "Option" = 1) := by
  decide

/-! ## Flashcard candidates and `_fallback_flashcards`
(utils.py lines 175-290) -/

/-- A flashcard candidate: the dict handed to the caller.  Option fields are
`Option String` because plain Q/A dicts (no option keys) and MCQ dicts are
both possible shapes. -/
structure Card where
  question : String
  answer : String
  option_a : Option String
  option_b : Option String
  option_c : Option String
  option_d : Option String
  correct_option : Option String
deriving DecidableEq, Repr

/-- The `{"question": q, "answer": a, **opts}` construction. -/
def mkMCQ (q a : String) (r : OptRec) : Card :=
  ⟨q, a, some r.option_a, some r.option_b, some r.option_c, some r.option_d,
    some r.correct_option⟩

/-- All five option fields are present (`Option.isSome`). -/
def optionsSetB (c : Card) : Bool :=
  c.option_a.isSome && c.option_b.isSome && c.option_c.isSome &&
    c.option_d.isSome && c.correct_option.isSome

/-- The option field named by a letter. -/
def cardOptionAt (c : Card) (letter : String) : Option String :=
  if letter = "A" then c.option_a
  else if letter = "B" then c.option_b
  else if letter = "C" then c.option_c
  else c.option_d

/-- `re.split(r'[.!?]\s+', ·)` (line 239): split at sentence punctuation
followed by whitespace, consuming the whole whitespace run.  The fuel
(`length + 1`) is ample: every step consumes a character. -/
def splitSentF : Nat → List Char → List Char → List (List Char)
  | 0, acc, l => [acc.reverse ++ l]
  | fuel + 1, acc, l =>
    match l with
    | [] => [acc.reverse]
    | c :: cs =>
      if c = '.' || c = '!' || c = '?' then
        match cs with
        | d :: ds =>
          if isPyWs d then
            acc.reverse :: splitSentF fuel [] (ds.dropWhile isPyWs)
          else splitSentF fuel (c :: acc) cs
        | [] => splitSentF fuel (c :: acc) cs
      else splitSentF fuel (c :: acc) cs

/-- The sentence list of `_fallback_flashcards`. -/
def splitSentences (l : List Char) : List (List Char) :=
  splitSentF (l.length + 1) [] l

/-- Line 250: `re.split(r'[.;\n]', a)[0][:60]`. -/
def heuristicCorrect (a : String) : String :=
  ⟨(a.data.takeWhile (fun c => !(c = '.' || c = ';' || c = '\n'))).take 60⟩

/-- Lines 251-254: capitalized word tokens of the text, excluding tokens that
occur (case-insensitively, as substrings) in the correct phrase, capped at 6,
with the fixed generic pool as fallback. -/
def heuristicPool (cleaned : List Char) (correct : String) : List String :=
  let pool := (((reFindAll (wordTokRE 2) cleaned).filter
      (fun w => !(isSubL (pyLower ⟨w⟩).data (pyLower correct).data))).map
    (fun w => pyCapitalize ⟨w⟩)).take 6
  if pool.isEmpty then
    ["Concept", "Process", "Component", "Protocol", "Dataset", "Method"]
  else pool

/-- The sentence loop of `_fallback_flashcards` (lines 240-262).  The `k`-th
card built consumes the `k`-th random draw. -/
def fallbackLoop (cleaned : List Char) (draws : Nat → Fin 4) (limit : Nat) :
    List (List Char) → List Card → List Card
  | [], cards => cards
  | s :: rest, cards =>
    if limit ≤ cards.length then cards
    else
      match derive_qa ⟨s⟩ with
      | none => fallbackLoop cleaned draws limit rest cards
      | some (q, a) =>
        if !(q = "") && !(a = "") then
          let correct := heuristicCorrect a
          let correctText := if correct = "" then "Correct answer" else correct
          fallbackLoop cleaned draws limit rest (cards ++
            [mkMCQ q a (assign_options_random correctText
              (heuristicPool cleaned correct) (draws cards.length))])
        else fallbackLoop cleaned draws limit rest cards

/-- Lines 266-276: deduplicated (case-insensitively) capitalized word tokens,
capped at 6. -/
def genericUniqueGo : List (List Char) → List String → List String → List String
  | [], _, acc => acc
  | w :: ws, seen, acc =>
    let lw := pyLower ⟨w⟩
    let seen2 := if seen.contains lw then seen else seen ++ [lw]
    let acc2 := if seen.contains lw then acc else acc ++ [pyCapitalize ⟨w⟩]
    if 6 ≤ acc2.length then acc2 else genericUniqueGo ws seen2 acc2

/-- `synthesize_generic` (lines 265-285). -/
def synthesize_generic (cleaned : List Char) (idx : Nat) (draw : Fin 4) : Card :=
  let unique := genericUniqueGo (reFindAll (wordTokRE 3) cleaned) [] []
  let pool := if unique.isEmpty then
      ["Concept", "Process", "Component", "Protocol", "Dataset", "Method"]
    else unique
  let correct := (match unique with
    | [] => "Key concept"
    | u :: _ => u) ++ " from the text"
  let wrongs := (List.range 3).map (fun j => pool.getD ((idx + j) % pool.length) "")
  mkMCQ "Which statement best describes the topic?"
    "It refers to key ideas in the provided text."
    (assign_options_random correct wrongs draw)

/-- `_fallback_flashcards` from the source: the sentence loop, topped up with
generic cards to exactly `limit`.  Generic card `i` consumes draw
`cards.length + i`. -/
def _fallback_flashcards (draws : Nat → Fin 4) (cleaned_text : String)
    (limit : Nat) : List Card :=
  let cards := fallbackLoop cleaned_text.data draws limit
    (splitSentences cleaned_text.data) []
  cards ++ (List.range (limit - cards.length)).map
    (fun i => synthesize_generic cleaned_text.data i (draws (cards.length + i)))

/-! ### Claim C3: the fallback generator returns exactly `limit` cards -/

theorem fallbackLoop_length_le (cleaned : List Char) (draws : Nat → Fin 4)
    (limit : Nat) :
    ∀ sents cards, cards.length ≤ limit →
      (fallbackLoop cleaned draws limit sents cards).length ≤ limit := by
  intro sents
  induction sents with
  | nil => intro cards h; exact h
  | cons s rest ih =>
    intro cards h
    unfold fallbackLoop
    split
    · exact h
    · rename_i hlt
      split
      · exact ih cards h
      · split
        · apply ih
          rw [List.length_append]
          simp only [List.length_cons, List.length_nil]
          omega
        · exact ih cards h

/-- Every card of the sentence loop is either an input card or built by
`mkMCQ` from a nonempty question, answer and correct phrase. -/
theorem fallbackLoop_mem (cleaned : List Char) (draws : Nat → Fin 4)
    (limit : Nat) :
    ∀ sents cards c, c ∈ fallbackLoop cleaned draws limit sents cards →
      c ∈ cards ∨ ∃ q a ct ws k, c = mkMCQ q a (assign_options_random ct ws (draws k)) ∧
        ct ≠ "" ∧ q ≠ "" ∧ a ≠ "" := by
  intro sents
  induction sents with
  | nil => intro cards c hc; exact Or.inl hc
  | cons s rest ih =>
    intro cards c hc
    unfold fallbackLoop at hc
    split at hc
    · exact Or.inl hc
    · split at hc
      · exact ih cards c hc
      · rename_i q a hqa
        split at hc
        · rename_i hne
          rcases ih _ c hc with hmem | hnew
          · rcases List.mem_append.mp hmem with h1 | h1
            · exact Or.inl h1
            · right
              simp only [List.mem_singleton] at h1
              subst h1
              refine ⟨q, a, _, _, cards.length, rfl, ?_, ?_, ?_⟩
              · split
                · decide
                · assumption
              · simpa using (Bool.and_eq_true _ _).mp hne |>.1
              · simpa using (Bool.and_eq_true _ _).mp hne |>.2
          · exact Or.inr hnew
        · exact ih cards c hc

/-- Nonempty append: a string extended by `" from the text"` is nonempty. -/
theorem append_from_text_ne (s : String) : s ++ " from the text" ≠ "" := by
  intro h
  have : (s ++ " from the text").data = s.data ++ " from the text".data := rfl
  rw [h] at this
  have hlen := congrArg List.length this
  simp [List.length_append] at hlen

/-- Every generic card is `mkMCQ`-shaped with a nonempty correct phrase. -/
theorem synthesize_generic_shape (cleaned : List Char) (idx : Nat)
    (draw : Fin 4) :
    ∃ q a ct ws, synthesize_generic cleaned idx draw =
      mkMCQ q a (assign_options_random ct ws draw) ∧ ct ≠ "" ∧ q ≠ "" ∧ a ≠ "" := by
  refine ⟨_, _, _, _, rfl, ?_, by decide, by decide⟩
  exact append_from_text_ne _

/-- Claim C3, amended: `_fallback_flashcards` returns exactly `limit` cards
with all option fields set for **every** input text and limit — including the
empty text, for which the generic top-up still produces `limit` cards (the
empty-input short-circuit lives in the caller `generate_flashcards_with_ai`,
not here). -/
theorem C3_fallback_exact_limit (draws : Nat → Fin 4) (text : String)
    (limit : Nat) :
    (_fallback_flashcards draws text limit).length = limit ∧
    (_fallback_flashcards draws text limit).all optionsSetB = true := by
  have hle := fallbackLoop_length_le text.data draws limit
    (splitSentences text.data) [] (Nat.zero_le _)
  constructor
  · unfold _fallback_flashcards
    rw [List.length_append, List.length_map, List.length_range]
    omega
  · rw [List.all_eq_true]
    intro c hc
    unfold _fallback_flashcards at hc
    rcases List.mem_append.mp hc with h1 | h1
    · rcases fallbackLoop_mem text.data draws limit _ _ c h1 with h2 | h2
      · simp at h2
      · obtain ⟨q, a, ct, ws, k, hshape, _⟩ := h2
        rw [hshape]
        rfl
    · rw [List.mem_map] at h1
      obtain ⟨i, _, hshape⟩ := h1
      obtain ⟨q, a, ct, ws, hshape2, _⟩ :=
        synthesize_generic_shape text.data i (draws _)
      rw [← hshape, hshape2]
      rfl

/-- Counterexample to C3 as frozen: on the empty text with the default limit
3, the generator returns three generic cards, not the empty list. -/
theorem C3_counterexample_empty_text :
    (_fallback_flashcards (fun _ => (0 : Fin 4)) "" 3).length = 3 := by
  decide

/-! ## Python semantics of decoded JSON values

The validation loop of `generate_flashcards_with_ai` applies Python
truthiness (`if q and a:`, `if c.get('option_a'):`) and `str(...)` to decoded
values.  `pyTruthy` and `pyStr` model those; numbers are truthy unless their
mantissa is all zero digits (the decoder never produces an empty lexeme, and
`NaN`/`Infinity`, which carry no digits, are truthy as in Python). -/

/-- The apostrophe character (used by Python `repr` of strings). -/
def aposC : Char := Char.ofNat 39

/-- A numeric lexeme denotes zero iff its mantissa digits are all `'0'`. -/
def numMantissaZero (lex : String) : Bool :=
  let m := lex.data.takeWhile (fun c => !(c = 'e' || c = 'E'))
  (m.any isDigitC) && !(m.any (fun c => '1' ≤ c && c ≤ '9'))

/-- Python truthiness of a decoded JSON value. -/
def pyTruthy : JValue → Bool
  | .jnull => false
  | .jbool b => b
  | .jnum lex => !(lex = "") && !(numMantissaZero lex)
  | .jstr s => !(s = "")
  | .jarr l => !l.isEmpty
  | .jobj kvs => !kvs.isEmpty

mutual

/-- Python `str(...)` of a decoded value (`str` of a parsed number is modelled
by its lexeme; no claim renders numbers). -/
def pyStr : JValue → String
  | .jnull => "None"
  | .jbool true => "True"
  | .jbool false => "False"
  | .jnum lex => lex
  | .jstr s => s
  | .jarr l => "[" ++ pyStrList l ++ "]"
  | .jobj kvs => "\x7b" ++ pyStrMembers kvs ++ "\x7d"

/-- Python `repr(...)` (containers render their elements with `repr`). -/
def pyRepr : JValue → String
  | .jstr s => ⟨aposC :: s.data ++ [aposC]⟩
  | .jnull => "None"
  | .jbool true => "True"
  | .jbool false => "False"
  | .jnum lex => lex
  | .jarr l => "[" ++ pyStrList l ++ "]"
  | .jobj kvs => "\x7b" ++ pyStrMembers kvs ++ "\x7d"

/-- Comma-joined `repr`s of list elements. -/
def pyStrList : List JValue → String
  | [] => ""
  | [v] => pyRepr v
  | v :: vs => pyRepr v ++ ", " ++ pyStrList vs

/-- Comma-joined `repr`ed key/value pairs of a dict. -/
def pyStrMembers : List (String × JValue) → String
  | [] => ""
  | [(k, v)] => ⟨aposC :: k.data ++ [aposC]⟩ ++ ": " ++ pyRepr v
  | (k, v) :: kvs =>
    ⟨aposC :: k.data ++ [aposC]⟩ ++ ": " ++ pyRepr v ++ ", " ++ pyStrMembers kvs

end

theorem data_eq_nil_iff (s : String) : s = "" ↔ s.data = [] := by
  constructor
  · intro h
    rw [h]
  · intro h
    cases s
    simp only at h
    rw [h]

theorem append_data (a b : String) : (a ++ b).data = a.data ++ b.data := rfl

/-- A truthy value renders to a nonempty string. -/
theorem pyStr_ne_of_truthy (v : JValue) (h : pyTruthy v = true) :
    pyStr v ≠ "" := by
  intro hcon
  rw [data_eq_nil_iff] at hcon
  match v with
  | .jnull => simp [pyTruthy] at h
  | .jbool true => exact absurd hcon (by decide)
  | .jbool false => simp [pyTruthy] at h
  | .jnum lex =>
    have hne : ¬ (lex = "") := by
      intro h0
      rw [h0] at h
      simp [pyTruthy] at h
    rw [show pyStr (.jnum lex) = lex from rfl] at hcon
    rw [data_eq_nil_iff] at hne
    exact hne hcon
  | .jstr s =>
    simp only [pyTruthy, Bool.not_eq_true'] at h
    rw [show pyStr (.jstr s) = s from rfl] at hcon
    have : s = "" := (data_eq_nil_iff s).mpr hcon
    simp [this] at h
  | .jarr l =>
    rw [show pyStr (.jarr l) = "[" ++ pyStrList l ++ "]" from rfl,
      append_data, append_data] at hcon
    simp at hcon
  | .jobj kvs =>
    rw [show pyStr (.jobj kvs) = "\x7b" ++ pyStrMembers kvs ++ "\x7d" from rfl,
      append_data, append_data] at hcon
    simp at hcon

/-- Dict lookup: the last occurrence of a key wins, as in a Python dict built
from a JSON object with duplicate keys. -/
def jGet (kvs : List (String × JValue)) (k : String) : Option JValue :=
  ((kvs.filter (fun p => p.1 = k)).getLast?).map (fun p => p.2)

/-- Python `x or y` on optional values (`None`/falsy selects the right
operand). -/
def pyOr (x y : Option JValue) : Option JValue :=
  match x with
  | some v => if pyTruthy v then some v else y
  | none => y

/-- Truthiness of `c.get(...)`-style optional values. -/
def truthyOpt : Option JValue → Bool
  | some v => pyTruthy v
  | none => false

/-! ## `generate_flashcards_with_ai` (utils.py lines 293-434)

The external Bytez call is I/O; its observable outcome is an `AIOutcome`:
the call raised (`exc`, caught on line 432), the result exposed a truthy
`error` field (`errField`, line 339), or a content string was extracted from
one of the tolerated result shapes (`content s`, lines 342-347; `s = ""`
also covers `None` content, line 349).  The stream of `random.randint(0,3)`
draws is `draws`: the card built for batch item `i` consumes `draws i`, and
the top-up fallback consumes `draws (10 + k)` onward (batch items are capped
at 10, so the indices never collide). -/

/-- Observable outcome of the external generation call. -/
inductive AIOutcome where
  | exc
  | errField
  | content (s : String)

/-- `_short_phrase` (lines 379-385). -/
def _short_phrase (text : String) : String :=
  let t := pyStripL text.data
  if t.isEmpty then ""
  else
    ⟨((pyStripL (subWsRuns (t.takeWhile
      (fun c => !(c = '.' || c = ';' || c = '\n'))))).take 60)⟩

/-- The dedup-and-exclude loop of `_distractors` (lines 390-397), capped at
12 entries. -/
def distractorsGo : List (List Char) → List String → List Char →
    List String → List String
  | [], _, _, acc => acc
  | w :: ws, seen, avoidL, acc =>
    let lw := pyLower ⟨w⟩
    let hit := seen.contains lw || isSubL lw.data avoidL
    let seen2 := if hit then seen else seen ++ [lw]
    let acc2 := if hit then acc else acc ++ [pyCapitalize ⟨w⟩]
    if 12 ≤ acc2.length then acc2 else distractorsGo ws seen2 avoidL acc2

/-- `_distractors` (lines 387-402). -/
def _distractors (source : List Char) (avoid : String) (k : Nat) : List String :=
  let uniq := distractorsGo (reFindAll (wordTokRE 2) source) []
    (pyLower avoid).data []
  let pool := if uniq.isEmpty then
      ["Concept", "Process", "Component", "Protocol", "Dataset", "Method",
        "Library", "Model"]
    else uniq
  (List.range k).map (fun i => pool.getD (i % pool.length) "")

/-- Lines 410-416: the card whose option fields are copied verbatim from the
external item (missing keys default to the empty string, `correct_option` is
truncated to one character and upper-cased). -/
def copiedCard (kvs : List (String × JValue)) (qs as_ : String) : Card :=
  ⟨qs, as_,
    some (sTake 255 (pyStr ((jGet kvs "option_a").getD (.jstr "")))),
    some (sTake 255 (pyStr ((jGet kvs "option_b").getD (.jstr "")))),
    some (sTake 255 (pyStr ((jGet kvs "option_c").getD (.jstr "")))),
    some (sTake 255 (pyStr ((jGet kvs "option_d").getD (.jstr "")))),
    some (pyUpper (sTake 1 (pyStr ((jGet kvs "correct_option").getD
      (.jstr "")))))⟩

/-- The per-item validation of lines 405-424: accept an item with truthy
question and answer; copy its option fields verbatim when `option_a` is
truthy, otherwise synthesize MCQ options. -/
def validItem (cleaned : List Char) (draws : Nat → Fin 4) (i : Nat)
    (kvs : List (String × JValue)) : Option Card :=
  match pyOr (jGet kvs "question") (jGet kvs "Question"),
      pyOr (jGet kvs "answer") (jGet kvs "Answer") with
  | some qv, some av =>
    if pyTruthy qv && pyTruthy av then
      let qs := sTake 255 (pyStr qv)
      let as_ := sTake 1000 (pyStr av)
      if truthyOpt (jGet kvs "option_a") then
        some (copiedCard kvs qs as_)
      else
        let correct0 := _short_phrase as_
        let correct1 := if correct0 = "" then _short_phrase qs else correct0
        let correct := if correct1 = "" then "Correct answer" else correct1
        some (mkMCQ qs as_ (assign_options_random correct
          (_distractors cleaned correct 3) (draws i)))
    else none
  | _, _ => none

/-- The validation loop over the batch (line 405, `flashcards[:10]` applied
by the caller).  A non-dict item never reaches this function: the caller
routes such batches to the fallback, because `c.get` on a non-dict raises
and the `except` on line 432 catches it. -/
def validCards (cleaned : List Char) (draws : Nat → Fin 4) :
    List JValue → Nat → List Card
  | [], _ => []
  | v :: rest, i =>
    match v with
    | .jobj kvs =>
      match validItem cleaned draws i kvs with
      | some c => c :: validCards cleaned draws rest (i + 1)
      | none => validCards cleaned draws rest (i + 1)
    | _ => validCards cleaned draws rest (i + 1)

/-- Lines 349-372: extract the JSON array substring from the content, parse
it strictly, and fall back to the lenient parse when the strict parse fails
or yields a non-list or empty list.  `none` means this content routes to the
heuristic fallback. -/
def aiParsedItems (content : String) : Option (List JValue) :=
  if content = "" then none
  else
    match extract_last_json_array content with
    | none => none
    | some js =>
      match try_json_loads js with
      | some (.jarr (v :: vs)) => some (v :: vs)
      | _ => parse_json_array_lenient js

/-- The content-processing branch of the orchestrator (lines 349-431). -/
def contentCards (cleaned : String) (content : String)
    (draws : Nat → Fin 4) : List Card :=
  match aiParsedItems content with
  | none => _fallback_flashcards draws cleaned 3
  | some items =>
    if (items.take 10).any (fun v => match v with
        | .jobj _ => false
        | _ => true) then
      _fallback_flashcards draws cleaned 3
    else
      let valid := validCards cleaned.data draws (items.take 10) 0
      if valid.isEmpty then _fallback_flashcards draws cleaned 3
      else if valid.length < 3 then
        valid ++ _fallback_flashcards (fun k => draws (10 + k)) cleaned
          (3 - valid.length)
      else valid

/-- `generate_flashcards_with_ai` from the source, with the external call's
outcome passed in (`ai = none` models the missing-key/SDK gate of line
306). -/
def generate_flashcards_with_ai (text : String) (ai : Option AIOutcome)
    (draws : Nat → Fin 4) : List Card :=
  if clean_text text = "" then []
  else
    match ai with
    | none => _fallback_flashcards draws (clean_text text) 3
    | some .exc => _fallback_flashcards draws (clean_text text) 3
    | some .errField => _fallback_flashcards draws (clean_text text) 3
    | some (.content c) => contentCards (clean_text text) c draws

/-! ### Shared facts about the generator paths -/

/-- `_fallback_flashcards` always returns exactly `limit` cards. -/
theorem fallback_length (draws : Nat → Fin 4) (text : String) (limit : Nat) :
    (_fallback_flashcards draws text limit).length = limit := by
  have hle := fallbackLoop_length_le text.data draws limit
    (splitSentences text.data) [] (Nat.zero_le _)
  unfold _fallback_flashcards
  rw [List.length_append, List.length_map, List.length_range]
  omega

theorem fallback_ne_nil (draws : Nat → Fin 4) (text : String) :
    _fallback_flashcards draws text 3 ≠ [] := by
  intro h
  have := fallback_length draws text 3
  rw [h] at this
  simp at this

theorem validCards_length_le (cleaned : List Char) (draws : Nat → Fin 4) :
    ∀ items i, (validCards cleaned draws items i).length ≤ items.length := by
  intro items
  induction items with
  | nil => intro i; simp [validCards]
  | cons v rest ih =>
    intro i
    unfold validCards
    split
    · split
      · simp only [List.length_cons]
        exact Nat.succ_le_succ (ih _)
      · exact Nat.le_succ_of_le (ih _)
    · exact Nat.le_succ_of_le (ih _)

/-! ### Claim C5: empty result iff empty normalized input -/

/-- Claim C5: the orchestrator returns `[]` exactly when the
whitespace-normalized input is empty; and the fallback generator itself
returns three cards even on empty text, so the empty result can only come
from the short-circuit on line 299, before any fallback call. -/
theorem C5_empty_iff_empty_input :
    (∀ (text : String) (ai : Option AIOutcome) (draws : Nat → Fin 4),
      generate_flashcards_with_ai text ai draws = [] ↔ clean_text text = "") ∧
    (∀ draws : Nat → Fin 4, (_fallback_flashcards draws "" 3).length = 3) := by
  constructor
  · intro text ai draws
    constructor
    · intro h
      by_contra hne
      unfold generate_flashcards_with_ai at h
      rw [if_neg hne] at h
      rcases ai with _ | o
      · exact fallback_ne_nil _ _ h
      · rcases o with _ | _ | c
        · exact fallback_ne_nil _ _ h
        · exact fallback_ne_nil _ _ h
        · dsimp only at h
          unfold contentCards at h
          split at h
          · exact fallback_ne_nil _ _ h
          · split at h
            · exact fallback_ne_nil _ _ h
            · dsimp only at h
              split at h
              · exact fallback_ne_nil _ _ h
              · split at h
                · rename_i hvne _
                  rw [List.append_eq_nil] at h
                  rw [h.1] at hvne
                  simp at hvne
                · rename_i hvne _
                  rw [h] at hvne
                  simp at hvne
    · intro h
      unfold generate_flashcards_with_ai
      rw [if_pos h]
  · intro draws
    exact fallback_length draws "" 3

/-! ### Claim C2: length bounds of the returned batch -/

/-- Claim C2, amended: the returned list never exceeds 10 cards (at most 10
candidates are taken from a single external batch before validation), and it
exceeds the fixed limit 3 only when the external batch itself yields more
than 3 valid candidates — in that case all validated candidates are returned
untruncated (the code does not cap them at 3 before the top-up check). -/
theorem C2_batch_length_bounds :
    (∀ (text : String) (ai : Option AIOutcome) (draws : Nat → Fin 4),
      (generate_flashcards_with_ai text ai draws).length ≤ 10) ∧
    (∀ (text : String) (ai : Option AIOutcome) (draws : Nat → Fin 4),
      3 < (generate_flashcards_with_ai text ai draws).length →
      ∃ c items, ai = some (.content c) ∧ aiParsedItems c = some items ∧
        generate_flashcards_with_ai text ai draws =
          validCards (clean_text text).data draws (items.take 10) 0) := by
  have hvalid10 : ∀ (cleaned : List Char) (draws : Nat → Fin 4)
      (items : List JValue),
      (validCards cleaned draws (items.take 10) 0).length ≤ 10 := by
    intro cleaned draws items
    calc (validCards cleaned draws (items.take 10) 0).length
        ≤ (items.take 10).length := validCards_length_le _ _ _ _
      _ ≤ 10 := by
          rw [List.length_take]
          exact Nat.min_le_left _ _
  constructor
  · intro text ai draws
    unfold generate_flashcards_with_ai
    split
    · simp
    · rcases ai with _ | o
      · rw [fallback_length]; omega
      · rcases o with _ | _ | c
        · rw [fallback_length]; omega
        · rw [fallback_length]; omega
        · dsimp only
          unfold contentCards
          split
          · rw [fallback_length]; omega
          · rename_i items hitems
            split
            · rw [fallback_length]; omega
            · dsimp only
              split
              · rw [fallback_length]; omega
              · split
                · rename_i hvne hlt
                  rw [List.length_append, fallback_length]
                  omega
                · exact hvalid10 _ _ _
  · intro text ai draws hgt
    unfold generate_flashcards_with_ai at hgt
    split at hgt
    · simp at hgt
    · rcases ai with _ | o
      · rw [fallback_length] at hgt; omega
      · rcases o with _ | _ | c
        · rw [fallback_length] at hgt; omega
        · rw [fallback_length] at hgt; omega
        · refine ⟨c, ?_⟩
          dsimp only at hgt
          unfold contentCards at hgt
          match hitems : aiParsedItems c with
          | none =>
            rw [hitems] at hgt
            dsimp only at hgt
            rw [fallback_length] at hgt
            omega
          | some items =>
            rw [hitems] at hgt
            dsimp only at hgt
            refine ⟨items, rfl, rfl, ?_⟩
            split at hgt
            · rw [fallback_length] at hgt; omega
            · split at hgt
              · rw [fallback_length] at hgt; omega
              · split at hgt
                · rename_i hvne hlt
                  rw [List.length_append, fallback_length] at hgt
                  omega
                · rename_i hne
                  unfold generate_flashcards_with_ai
                  rw [if_neg (by assumption)]
                  dsimp only
                  unfold contentCards
                  rw [hitems]
                  dsimp only
                  rw [if_neg (by assumption), if_neg (by assumption),
                    if_neg (by assumption)]

set_option maxRecDepth 8192 in
/-- Counterexample to C2 as frozen: an external batch of four valid MCQ items
yields a four-card result — more than the fixed limit 3. -/
theorem C2_counterexample_over_quota_batch :
    (generate_flashcards_with_ai "Topic."
      (some (.content ("[\x7b\"question\":\"q1\",\"answer\":\"a1\",\"option_a\":\"x\"\x7d," ++
        "\x7b\"question\":\"q2\",\"answer\":\"a2\",\"option_a\":\"x\"\x7d," ++
        "\x7b\"question\":\"q3\",\"answer\":\"a3\",\"option_a\":\"x\"\x7d," ++
        "\x7b\"question\":\"q4\",\"answer\":\"a4\",\"option_a\":\"x\"\x7d]")))
      (fun _ => (0 : Fin 4))).length = 4 := by
  decide

set_option maxRecDepth 8192 in
/-- Witness for C2: the over-quota hypothesis discharged at the same
concrete input. -/
theorem C2_batch_length_bounds_witness :
    ∃ c items,
      (some (.content ("[\x7b\"question\":\"q1\",\"answer\":\"a1\",\"option_a\":\"x\"\x7d," ++
        "\x7b\"question\":\"q2\",\"answer\":\"a2\",\"option_a\":\"x\"\x7d," ++
        "\x7b\"question\":\"q3\",\"answer\":\"a3\",\"option_a\":\"x\"\x7d," ++
        "\x7b\"question\":\"q4\",\"answer\":\"a4\",\"option_a\":\"x\"\x7d]")) :
          Option AIOutcome) = some (.content c) ∧
      aiParsedItems c = some items ∧
      generate_flashcards_with_ai "Topic."
        (some (.content ("[\x7b\"question\":\"q1\",\"answer\":\"a1\",\"option_a\":\"x\"\x7d," ++
          "\x7b\"question\":\"q2\",\"answer\":\"a2\",\"option_a\":\"x\"\x7d," ++
          "\x7b\"question\":\"q3\",\"answer\":\"a3\",\"option_a\":\"x\"\x7d," ++
          "\x7b\"question\":\"q4\",\"answer\":\"a4\",\"option_a\":\"x\"\x7d]")))
        (fun _ => (0 : Fin 4)) =
        validCards (clean_text "Topic.").data (fun _ => (0 : Fin 4))
          ((items.take 10)) 0 :=
  C2_batch_length_bounds.2 "Topic." _ (fun _ => (0 : Fin 4)) (by decide)

/-! ### Claim C1: well-formedness of every returned card -/

theorem sTake_ne (n : Nat) (hn : 1 ≤ n) (s : String) (hs : s ≠ "") :
    sTake n s ≠ "" := by
  intro h
  have h2 : s.data.take n = [] := (data_eq_nil_iff _).mp h
  rw [List.take_eq_nil_iff] at h2
  rcases h2 with h1 | h1
  · omega
  · exact hs ((data_eq_nil_iff s).mpr h1)

theorem validItem_wellformed (cleaned : List Char) (draws : Nat → Fin 4)
    (i : Nat) (kvs : List (String × JValue)) (c : Card)
    (h : validItem cleaned draws i kvs = some c) :
    c.question ≠ "" ∧ c.answer ≠ "" ∧ optionsSetB c = true := by
  unfold validItem at h
  split at h
  · rename_i qv av _ _
    split at h
    · rename_i htr
      obtain ⟨hq, ha⟩ := (Bool.and_eq_true _ _).mp htr
      dsimp only at h
      split at h
      · rw [Option.some_inj] at h
        subst h
        exact ⟨sTake_ne 255 (by omega) _ (pyStr_ne_of_truthy qv hq),
          sTake_ne 1000 (by omega) _ (pyStr_ne_of_truthy av ha), rfl⟩
      · rw [Option.some_inj] at h
        subst h
        exact ⟨sTake_ne 255 (by omega) _ (pyStr_ne_of_truthy qv hq),
          sTake_ne 1000 (by omega) _ (pyStr_ne_of_truthy av ha), rfl⟩
    · cases h
  · cases h

theorem validCards_mem_wellformed (cleaned : List Char) (draws : Nat → Fin 4) :
    ∀ items i c, c ∈ validCards cleaned draws items i →
      c.question ≠ "" ∧ c.answer ≠ "" ∧ optionsSetB c = true := by
  intro items
  induction items with
  | nil => intro i c hc; simp [validCards] at hc
  | cons v rest ih =>
    intro i c hc
    unfold validCards at hc
    split at hc
    · rename_i kvs
      split at hc
      · rename_i c0 hc0
        rcases List.mem_cons.mp hc with h1 | h1
        · subst h1
          exact validItem_wellformed cleaned draws i kvs c hc0
        · exact ih _ c h1
      · exact ih _ c hc
    · exact ih _ c hc

/-- Every fallback card is `mkMCQ`-shaped with nonempty q, a and correct
phrase. -/
theorem fallback_mem_shape (draws : Nat → Fin 4) (text : String)
    (limit : Nat) :
    ∀ c ∈ _fallback_flashcards draws text limit,
      ∃ q a ct ws idx, c = mkMCQ q a (assign_options_random ct ws idx) ∧
        ct ≠ "" ∧ q ≠ "" ∧ a ≠ "" := by
  intro c hc
  unfold _fallback_flashcards at hc
  rcases List.mem_append.mp hc with h1 | h1
  · rcases fallbackLoop_mem text.data draws limit _ _ c h1 with h2 | h2
    · simp at h2
    · obtain ⟨q, a, ct, ws, k, hshape, hct, hq, ha⟩ := h2
      exact ⟨q, a, ct, ws, draws k, hshape, hct, hq, ha⟩
  · rw [List.mem_map] at h1
    obtain ⟨i, _, hshape⟩ := h1
    obtain ⟨q, a, ct, ws, hshape2, hct, hq, ha⟩ :=
      synthesize_generic_shape text.data i (draws _)
    exact ⟨q, a, ct, ws, _, by rw [← hshape, hshape2], hct, hq, ha⟩

theorem assign_letter_slot (correct : String) (wrongs : List String)
    (idx : Fin 4) :
    (assign_options_random correct wrongs idx).correct_option ∈
      (["A", "B", "C", "D"] : List String) ∧
    slotOf (assign_options_random correct wrongs idx)
      ((assign_options_random correct wrongs idx).correct_option) = correct := by
  obtain ⟨p0, p1, p2, hp⟩ := padPool_shape (filterWrongs wrongs)
  have hassign : assign_options_random correct wrongs idx =
      assignFrom correct p0 p1 p2 idx := by
    unfold assign_options_random
    rw [hp]
  rw [hassign]
  match idx with
  | ⟨0, _⟩ => exact ⟨by simp [assignFrom], by simp [assignFrom, slotOf]⟩
  | ⟨1, _⟩ => exact ⟨by simp [assignFrom], by simp [assignFrom, slotOf]⟩
  | ⟨2, _⟩ => exact ⟨by simp [assignFrom], by simp [assignFrom, slotOf]⟩
  | ⟨3, _⟩ => exact ⟨by simp [assignFrom], by simp [assignFrom, slotOf]⟩

theorem padPool_mem (l : List String) :
    ∀ x ∈ padPool l, x ∈ l ∨ x = "Option" := by
  intro x hx
  match l with
  | [] => simp [padPool] at hx; simp [hx]
  | [a] => simp [padPool] at hx; rcases hx with h | h <;> simp [h]
  | [a, b] => simp [padPool] at hx; rcases hx with h | h | h <;> simp [h]
  | a :: b :: c :: rest =>
    simp [padPool] at hx
    rcases hx with h | h | h <;> simp [h]

theorem filterWrongs_ne (w : List String) :
    ∀ x ∈ filterWrongs w, x ≠ "" := by
  intro x hx
  have := List.of_mem_filter hx
  intro h0
  rw [h0] at this
  simp at this

theorem assign_slots_mem (correct : String) (wrongs : List String)
    (idx : Fin 4) :
    ∀ s ∈ optionSlots (assign_options_random correct wrongs idx),
      s = correct ∨ s ∈ padPool (filterWrongs wrongs) := by
  obtain ⟨p0, p1, p2, hp⟩ := padPool_shape (filterWrongs wrongs)
  have hassign : assign_options_random correct wrongs idx =
      assignFrom correct p0 p1 p2 idx := by
    unfold assign_options_random
    rw [hp]
  rw [hassign, hp]
  match idx with
  | ⟨0, _⟩ =>
    intro s hs
    simp [assignFrom, optionSlots] at hs
    rcases hs with h | h | h | h <;> simp [h]
  | ⟨1, _⟩ =>
    intro s hs
    simp [assignFrom, optionSlots] at hs
    rcases hs with h | h | h | h <;> simp [h]
  | ⟨2, _⟩ =>
    intro s hs
    simp [assignFrom, optionSlots] at hs
    rcases hs with h | h | h | h <;> simp [h]
  | ⟨3, _⟩ =>
    intro s hs
    simp [assignFrom, optionSlots] at hs
    rcases hs with h | h | h | h <;> simp [h]

theorem assign_slots_ne (correct : String) (wrongs : List String)
    (idx : Fin 4) (hc : correct ≠ "") :
    ∀ s ∈ optionSlots (assign_options_random correct wrongs idx), s ≠ "" := by
  intro s hs
  rcases assign_slots_mem correct wrongs idx s hs with h | h
  · rw [h]; exact hc
  · rcases padPool_mem _ s h with h1 | h1
    · exact filterWrongs_ne _ s h1
    · rw [h1]; decide

theorem cardOptionAt_mkMCQ (q a : String) (r : OptRec) (letter : String) :
    cardOptionAt (mkMCQ q a r) letter = some (slotOf r letter) := by
  unfold cardOptionAt slotOf mkMCQ
  split_ifs <;> rfl

theorem slotOf_mem (r : OptRec) (letter : String) :
    slotOf r letter ∈ optionSlots r := by
  unfold slotOf optionSlots
  split_ifs <;> simp

/-- A complete MCQ card: `correct_option` is one of the four letters, the
slot it names holds the nonempty correct answer, and all four option slots
hold nonempty strings. -/
def CompleteMCQ (c : Card) : Prop :=
  ∃ co correct, c.correct_option = some co ∧
    co ∈ (["A", "B", "C", "D"] : List String) ∧
    cardOptionAt c co = some correct ∧ correct ≠ "" ∧
    ∀ letter ∈ (["A", "B", "C", "D"] : List String),
      ∃ s, cardOptionAt c letter = some s ∧ s ≠ ""

/-- An `mkMCQ` card built from a nonempty correct phrase is a complete MCQ:
all four options present and nonempty, `correct_option` a letter A-D, and the
named slot holding the correct phrase. -/
theorem mkMCQ_complete (q a ct : String) (ws : List String) (idx : Fin 4)
    (hct : ct ≠ "") :
    CompleteMCQ (mkMCQ q a (assign_options_random ct ws idx)) := by
  obtain ⟨hletter, hslot⟩ := assign_letter_slot ct ws idx
  unfold CompleteMCQ
  refine ⟨(assign_options_random ct ws idx).correct_option, ct, rfl, hletter,
    ?_, hct, ?_⟩
  · rw [cardOptionAt_mkMCQ, hslot]
  · intro letter _
    refine ⟨slotOf (assign_options_random ct ws idx) letter,
      cardOptionAt_mkMCQ _ _ _ _, ?_⟩
    exact assign_slots_ne ct ws idx hct _ (slotOf_mem _ _)

/-- Every card of the heuristic fallback generator is a complete MCQ. -/
theorem fallback_mem_complete (draws : Nat → Fin 4) (text : String)
    (limit : Nat) :
    ∀ c ∈ _fallback_flashcards draws text limit, CompleteMCQ c := by
  intro c hc
  obtain ⟨q, a, ct, ws, idx, hshape, hct, hq, ha⟩ :=
    fallback_mem_shape draws text limit c hc
  subst hshape
  exact mkMCQ_complete q a ct ws idx hct

/-- A string defaulted to a literal when empty is never empty. -/
theorem default_if_empty_ne (s : String) :
    (if s = "" then "Correct answer" else s) ≠ "" := by
  split
  · decide
  · assumption

/-- Every accepted batch item yields either a complete MCQ (the
synthesized-options branch, whose correct phrase falls back to the literal
defaulted on the line above and is never empty) or the verbatim copy of the
item's own option fields. -/
theorem validItem_cases (cleaned : List Char) (draws : Nat → Fin 4) (i : Nat)
    (kvs : List (String × JValue)) (c : Card)
    (h : validItem cleaned draws i kvs = some c) :
    CompleteMCQ c ∨ ∃ qs as_, c = copiedCard kvs qs as_ := by
  unfold validItem at h
  split at h
  · split at h
    · dsimp only at h
      split at h
      · rw [Option.some_inj] at h
        exact Or.inr ⟨_, _, h.symm⟩
      · rw [Option.some_inj] at h
        subst h
        exact Or.inl (mkMCQ_complete _ _ _ _ _ (default_if_empty_ne _))
    · cases h
  · cases h

/-- Membership version of `validItem_cases` for the whole batch. -/
theorem validCards_mem_cases (cleaned : List Char) (draws : Nat → Fin 4) :
    ∀ items i c, c ∈ validCards cleaned draws items i →
      CompleteMCQ c ∨ ∃ kvs qs as_, c = copiedCard kvs qs as_ := by
  intro items
  induction items with
  | nil => intro i c hc; simp [validCards] at hc
  | cons v rest ih =>
    intro i c hc
    unfold validCards at hc
    split at hc
    · rename_i kvs
      split at hc
      · rename_i c0 hc0
        rcases List.mem_cons.mp hc with h1 | h1
        · subst h1
          rcases validItem_cases cleaned draws i kvs c hc0 with h2 | ⟨qs, as_, h2⟩
          · exact Or.inl h2
          · exact Or.inr ⟨kvs, qs, as_, h2⟩
        · exact ih _ c h1
      · exact ih _ c hc
    · exact ih _ c hc

/-- Claim C1, amended: every card returned by the orchestrator has a
nonempty question and answer, carries all five option fields, and is a
complete MCQ — nonempty options, `correct_option` a letter A-D naming the
slot that holds the nonempty correct phrase — *unless* its option fields
were copied verbatim from an external item carrying `option_a` (the one case
the counterexample exhibits, where `option_b`-`option_d` and
`correct_option` may be empty).  In particular the heuristic fallback cards,
the generic top-up cards and the AI-path synthesized-MCQ cards are all
complete; the second conjunct states the fallback generator's guarantee
directly. -/
theorem C1_card_wellformedness :
    (∀ (text : String) (ai : Option AIOutcome) (draws : Nat → Fin 4),
      ∀ c ∈ generate_flashcards_with_ai text ai draws,
        c.question ≠ "" ∧ c.answer ≠ "" ∧ optionsSetB c = true ∧
        (CompleteMCQ c ∨ ∃ kvs qs as_, c = copiedCard kvs qs as_)) ∧
    (∀ (draws : Nat → Fin 4) (text : String) (limit : Nat),
      ∀ c ∈ _fallback_flashcards draws text limit, CompleteMCQ c) := by
  have hfallback : ∀ (draws : Nat → Fin 4) (text : String) (limit : Nat),
      ∀ c ∈ _fallback_flashcards draws text limit,
        c.question ≠ "" ∧ c.answer ≠ "" ∧ optionsSetB c = true ∧
        (CompleteMCQ c ∨ ∃ kvs qs as_, c = copiedCard kvs qs as_) := by
    intro draws text limit c hc
    have hcomplete := fallback_mem_complete draws text limit c hc
    obtain ⟨q, a, ct, ws, idx, hshape, hct, hq, ha⟩ :=
      fallback_mem_shape draws text limit c hc
    subst hshape
    exact ⟨hq, ha, rfl, Or.inl hcomplete⟩
  have hvalid : ∀ (cleaned : List Char) (draws : Nat → Fin 4) items i,
      ∀ c ∈ validCards cleaned draws items i,
        c.question ≠ "" ∧ c.answer ≠ "" ∧ optionsSetB c = true ∧
        (CompleteMCQ c ∨ ∃ kvs qs as_, c = copiedCard kvs qs as_) := by
    intro cleaned draws items i c hc
    obtain ⟨h1, h2, h3⟩ := validCards_mem_wellformed cleaned draws items i c hc
    exact ⟨h1, h2, h3, validCards_mem_cases cleaned draws items i c hc⟩
  constructor
  · intro text ai draws c hc
    unfold generate_flashcards_with_ai at hc
    split at hc
    · simp at hc
    · rcases ai with _ | o
      · exact hfallback _ _ _ c hc
      · rcases o with _ | _ | s
        · exact hfallback _ _ _ c hc
        · exact hfallback _ _ _ c hc
        · dsimp only at hc
          unfold contentCards at hc
          split at hc
          · exact hfallback _ _ _ c hc
          · split at hc
            · exact hfallback _ _ _ c hc
            · dsimp only at hc
              split at hc
              · exact hfallback _ _ _ c hc
              · split at hc
                · rcases List.mem_append.mp hc with h1 | h1
                  · exact hvalid _ _ _ _ c h1
                  · exact hfallback _ _ _ c h1
                · exact hvalid _ _ _ _ c hc
  · exact fallback_mem_complete

/-- Witness for C1: the heuristic-path card of a one-card fallback run is a
complete MCQ. -/
theorem C1_card_wellformedness_witness :
    CompleteMCQ (Card.mk "Which statement best describes the topic?"
      "It refers to key ideas in the provided text."
      (some "Key concept from the text") (some "Concept") (some "Process")
      (some "Component") (some "A")) :=
  C1_card_wellformedness.2 (fun _ => (0 : Fin 4)) "T." 1 _ (by decide)

set_option maxRecDepth 8192 in
/-- Counterexample to C1 as frozen: when the external item carries `option_a`
but no other option keys, the copied card has empty `option_b`-`option_d` and
an empty `correct_option` — a card that carries option fields yet is not a
complete MCQ. -/
theorem C1_counterexample_copied_options_incomplete :
    (generate_flashcards_with_ai "Topic."
      (some (.content "[\x7b\"question\":\"Q\",\"answer\":\"A\",\"option_a\":\"X\"\x7d]"))
      (fun _ => (0 : Fin 4))).head? =
      some (Card.mk "Q" "A" (some "X") (some "") (some "") (some "")
        (some "")) := by
  decide

end FlashAI
